import Mathlib

/-!
Verification development for the CodeGuard-Pro repository.

The JavaScript sources are shallowly embedded as executable Lean
definitions: strings are `List Char` or `String`, machine time is an
abstract monotone `Nat` counter, network calls are oracle functions
supplied as parameters, and thrown exceptions are explicit `Except` /
sum results.  Each definition carries a comment naming the source
function it embeds.
-/

namespace CodeGuard

/-! ## JavaScript string primitives

`isJsSpace` models the character class `\s` of JavaScript regular
expressions (ECMA-262 WhiteSpace ∪ LineTerminator).  `jsTrim` models
`String.prototype.trim`, `Char.toUpper` models `toUpperCase` on the
Basic Latin range (all inputs of interest; later filters discard
non-Latin characters anyway). -/

def isJsSpace (c : Char) : Bool :=
  c = ' ' || c = '\t' || c = '\n' || c = '\r' ||
  c.val = 0x0b || c.val = 0x0c || c.val = 0xa0 || c.val = 0x1680 ||
  (0x2000 ≤ c.val && c.val ≤ 0x200a) ||
  c.val = 0x2028 || c.val = 0x2029 || c.val = 0x202f ||
  c.val = 0x205f || c.val = 0x3000 || c.val = 0xfeff

def jsTrimLeft (l : List Char) : List Char :=
  l.dropWhile isJsSpace

def jsTrim (l : List Char) : List Char :=
  ((jsTrimLeft l).reverse.dropWhile isJsSpace).reverse

/-- Model of the regex replacement `.replace(/\s+/g, '_')`: every maximal
run of JS whitespace becomes a single underscore.  The boolean argument
records whether the previous character was part of a whitespace run. -/
def collapseWsAux : Bool → List Char → List Char
  | _, [] => []
  | prevSpace, c :: rest =>
    if isJsSpace c then
      if prevSpace then collapseWsAux true rest
      else '_' :: collapseWsAux true rest
    else c :: collapseWsAux false rest

def collapseWs (l : List Char) : List Char :=
  collapseWsAux false l

def isUpperAZ (c : Char) : Bool := 'A' ≤ c && c ≤ 'Z'

def isDigit09 (c : Char) : Bool := '0' ≤ c && c ≤ '9'

/-! ## Healing branch name (C8)

Source `RepoHealerEngine._generateBranchName`:

    const clean = (str) =>
      str.toUpperCase().replace(/[^A-Z0-9\s]/g, '').replace(/\s+/g, '_').trim();
    return clean(teamName) + '_' + clean(leaderName) + '_AI_Fix';
-/

/-- The server-side `clean` helper.  The character filter keeps exactly
`[A-Z0-9\s]` (note: all of `\s`, not merely the space character). -/
def cleanName (l : List Char) : List Char :=
  jsTrim (collapseWs ((l.map Char.toUpper).filter
    (fun c => isUpperAZ c || isDigit09 c || isJsSpace c)))

/-- `RepoHealerEngine._generateBranchName`. -/
def generateBranchName (teamName leaderName : String) : String :=
  String.mk (cleanName teamName.data) ++ "_" ++
    String.mk (cleanName leaderName.data) ++ "_AI_Fix"

/-- The client-side branch preview (dashboard page): identical pipeline
except that it does not call `.trim()` at the end. -/
def clientCleanName (l : List Char) : List Char :=
  collapseWs ((l.map Char.toUpper).filter
    (fun c => isUpperAZ c || isDigit09 c || isJsSpace c))

/-- The branch-name string rendered by the dashboard preview. -/
def clientBranchPreview (teamName leaderName : String) : String :=
  String.mk (clientCleanName teamName.data) ++ "_" ++
    String.mk (clientCleanName leaderName.data) ++ "_AI_Fix"

/-- Sanitization exactly as the specification words it: uppercase, drop
every character not in `[A-Z0-9 ]` (only the literal space survives),
collapse whitespace runs to an underscore, trim.  Written from the
spec's words, for comparison with `cleanName` from the source. -/
def sanitizeSpecWorded (l : List Char) : List Char :=
  jsTrim (collapseWs ((l.map Char.toUpper).filter
    (fun c => isUpperAZ c || isDigit09 c || c = ' ')))

/-- Branch name as the claim describes it, built from `sanitizeSpecWorded`. -/
def specWordedBranchName (teamName leaderName : String) : String :=
  String.mk (sanitizeSpecWorded teamName.data) ++ "_" ++
    String.mk (sanitizeSpecWorded leaderName.data) ++ "_AI_Fix"

/-! ## Substring utilities (embedding JS `RegExp.test` / `String.includes`) -/

/-- `needle` occurs as a contiguous infix of `hay` (boolean, executable). -/
def listIsInfix (needle : List Char) : List Char → Bool
  | [] => needle.isEmpty
  | c :: t => needle.isPrefixOf (c :: t) || listIsInfix needle t

/-- Split `hay` at the first occurrence of `needle`: returns the part
strictly before the match and the part strictly after it. -/
def splitFirstInfix (needle : List Char) : List Char → Option (List Char × List Char)
  | [] => if needle.isEmpty then some ([], []) else none
  | c :: t =>
    if needle.isPrefixOf (c :: t) then some ([], (c :: t).drop needle.length)
    else (fun p => (c :: p.1, p.2)) <$> splitFirstInfix needle t

def lowerList (l : List Char) : List Char := l.map Char.toLower

/-- JS word character `\w` = `[A-Za-z0-9_]`. -/
def isWordChar (c : Char) : Bool :=
  ('a' ≤ c && c ≤ 'z') || isUpperAZ c || isDigit09 c || c = '_'

def jsTrimStr (s : String) : String := String.mk (jsTrim s.data)

/-! ## Newline splitting (JS `str.split('\n')` / `arr.join('\n')`) -/

def splitNlChars : List Char → List (List Char)
  | [] => [[]]
  | c :: t =>
    if c = '\n' then [] :: splitNlChars t
    else
      match splitNlChars t with
      | [] => [[c]]
      | h :: r => (c :: h) :: r

def joinNlChars : List (List Char) → List Char
  | [] => []
  | [x] => x
  | x :: y :: r => x ++ '\n' :: joinNlChars (y :: r)

/-! ## ASTEngine suppression (C7)

Source `ASTEngine._isSuppressed` and the match-processing loop of
`ASTEngine.analyze` (worker).  Tree-sitter itself is external: the
matches a compiled query returns are an input to the embedded loop. -/

structure AstCapture where
  name : String
  row : Nat
  col : Nat
  endRow : Nat
  endCol : Nat
  text : String
  deriving DecidableEq, Repr

structure AstMatch where
  captures : List AstCapture
  deriving DecidableEq, Repr

structure AstRule where
  id : String
  name : String
  category : String
  severity : String
  message : String
  deriving DecidableEq, Repr

structure Violation where
  ruleId : String
  line : Nat
  column : Nat
  endLine : Nat
  endColumn : Nat
  snippet : String
  lineText : String
  deriving DecidableEq, Repr

def suppressionMarkers : List (List Char) :=
  ["codeguard-ignore".data, "noqa".data, "eslint-disable".data, "@suppress".data]

/-- The test `/codeguard-ignore|noqa|eslint-disable|@suppress/i.test(line)`:
case-insensitive containment of one of the four markers. -/
def markerHit (line : List Char) : Bool :=
  suppressionMarkers.any (fun m => listIsInfix m (lowerList line))

/-- `ASTEngine._isSuppressed(lines, lineIndex)`. -/
def isSuppressed (lines : List String) (lineIndex : Nat) : Bool :=
  let line := lines.getD lineIndex ""
  let prevLine := if lineIndex > 0 then lines.getD (lineIndex - 1) "" else ""
  markerHit line.data || markerHit prevLine.data

/-- Capture selection in `analyze`: the capture named `target`, else the
first capture, else skip the match. -/
def findTargetCapture (caps : List AstCapture) : Option AstCapture :=
  match caps.find? (fun c => c.name = "target") with
  | some c => some c
  | none => caps.head?

/-- One iteration of the inner match loop of `ASTEngine.analyze`:
`none` means the match produces no violation (no capture, or
suppressed). -/
def emitViolation (lines : List String) (rule : AstRule) (m : AstMatch) : Option Violation :=
  match findTargetCapture m.captures with
  | none => none
  | some cap =>
    if isSuppressed lines cap.row then none
    else
      some { ruleId := rule.id
             line := cap.row + 1
             column := cap.col
             endLine := cap.endRow + 1
             endColumn := cap.endCol
             snippet := if cap.text.length > 120 then cap.text.take 120 ++ "..." else cap.text
             lineText := jsTrimStr (lines.getD cap.row "") }

/-- The query loop of `ASTEngine.analyze`: each rule contributes the
violations of its matches (a rule whose query compilation fails is
caught and contributes no matches, so it is represented by an empty
match list). -/
def analyzeViolations (lines : List String) (ruleMatches : List (AstRule × List AstMatch)) :
    List Violation :=
  ruleMatches.foldl (fun acc rm => acc ++ rm.2.filterMap (emitViolation lines rm.1)) []

/-- The claim's suppression condition, worded as in the spec: the line
containing the match's start, or the immediately preceding line,
contains one of the four markers verbatim. -/
def claimSuppressed (lines : List String) (row : Nat) : Bool :=
  suppressionMarkers.any (fun mk => listIsInfix mk (lines.getD row "").data) ||
  (decide (0 < row) && suppressionMarkers.any
    (fun mk => listIsInfix mk (lines.getD (row - 1) "").data))

/-! ## Webhook intake (C2, C9)

Source `web/app/api/github/webhook/route.js`. `crypto.timingSafeEqual`
throws a `RangeError` when the two buffers differ in byte length; the
embedding makes the throw explicit.  The HMAC-SHA256 hex digest of the
configured secret over the body is abstracted as the oracle `hmacHex`. -/

structure WebhookEnv where
  nodeEnvDevelopment : Bool
  webhookSecretSet : Bool
  deriving DecidableEq, Repr

inductive VerifyOutcome where
  | ok (b : Bool)
  | thrown
  deriving DecidableEq, Repr

/-- `crypto.timingSafeEqual(Buffer.from(a), Buffer.from(b))`: throws on
byte-length mismatch, otherwise byte equality (UTF-8 encoding is
injective, so equal-length byte equality is string equality). -/
def timingSafeEqual (a b : String) : VerifyOutcome :=
  if a.utf8ByteSize = b.utf8ByteSize then .ok (a = b) else .thrown

/-- `verifySignature(payload, signature)`; `digestHex` is the HMAC hex
digest of the payload. -/
def verifySignature (env : WebhookEnv) (digestHex : String) (signature : Option String) :
    VerifyOutcome :=
  match signature with
  | none => .ok env.nodeEnvDevelopment
  | some s =>
    if !env.webhookSecretSet then .ok env.nodeEnvDevelopment
    else timingSafeEqual s ("sha256=" ++ digestHex)

/-- The `POST` route handler, reduced to its HTTP status code.  The
outer `try/catch` turns any thrown error into a 500 response; event
handlers themselves all resolve to a 200 response. -/
def webhookPost (env : WebhookEnv) (hmacHex : String → String) (jsonOk : String → Bool)
    (eventHeader sigHeader : Option String) (body : String) : Nat :=
  match eventHeader with
  | none => 400
  | some _ =>
    if body = "" then 400
    else
      match verifySignature env (hmacHex body) sigHeader with
      | .thrown => 500
      | .ok false => 401
      | .ok true => if jsonOk body then 200 else 400

/-! ## FixAgent (C5, C10)

Source `web/lib/repo-healer/agents/fix-agent.js`.  String lengths are
character counts (`String.prototype.length` counts UTF-16 units, which
coincides on the Basic Multilingual Plane).  The float comparison
`fixedCode.length < originalContent.length * 0.3` is embedded as
`10 * len < 3 * olen`: for every length `n` below 2^49, `n * 0.3`
computed in binary64 rounds to exactly `3n/10` whenever `3n/10` is an
integer and otherwise lies at distance ≥ 0.09 from every integer, so
the two comparisons agree on all machine-representable inputs. -/

structure Issue where
  file : String
  line : Int
  bug_type : String
  description : String
  source : String
  deriving DecidableEq, Repr

structure FixResult where
  success : Bool
  fixedCode : String
  commitMessage : String
  explanation : String
  deriving DecidableEq, Repr

def jsTrimRight (l : List Char) : List Char :=
  (l.reverse.dropWhile isJsSpace).reverse

def lowerStr (s : String) : String := String.mk (lowerList s.data)

/-- JS truthiness default for strings: `x || d`. -/
def orDefault (s d : String) : String := if s = "" then d else s

/-- The file filter `/\.(js|ts|jsx|tsx)$/` of the SYNTAX rule. -/
def isJsTsFile (file : String) : Bool :=
  file.endsWith ".js" || file.endsWith ".ts" || file.endsWith ".jsx" || file.endsWith ".tsx"

/-- A match of `/console\.(log|debug|info)\s*\(/` starting at the head. -/
def matchConsoleAt (l : List Char) : Bool :=
  if "console.".data.isPrefixOf l then
    let rest := l.drop 8
    let after :=
      if "log".data.isPrefixOf rest then some (rest.drop 3)
      else if "debug".data.isPrefixOf rest then some (rest.drop 5)
      else if "info".data.isPrefixOf rest then some (rest.drop 4)
      else none
    match after with
    | some r => (r.dropWhile isJsSpace).head? = some '('
    | none => false
  else false

def containsConsoleCall : List Char → Bool
  | [] => false
  | c :: t => matchConsoleAt (c :: t) || containsConsoleCall t

/-- Leftmost match of `/\beval\s*\(/`, replaced by `Function(`; `none`
when the pattern does not occur.  `prevIsWord` tracks the word-boundary
`\b` state. -/
def replaceEvalAux (prevIsWord : Bool) : List Char → Option (List Char)
  | [] => none
  | c :: t =>
    if !prevIsWord && "eval".data.isPrefixOf (c :: t) &&
        (((c :: t).drop 4).dropWhile isJsSpace).head? = some '(' then
      some ("Function(".data ++ ((((c :: t).drop 4).dropWhile isJsSpace).drop 1))
    else (c :: ·) <$> replaceEvalAux (isWordChar c) t

def hasEvalCall (l : List Char) : Bool := (replaceEvalAux false l).isSome

def replaceEvalCall (l : List Char) : List Char := (replaceEvalAux false l).getD l

/-- The test `/[^=!]==[^=]/`. -/
def hasLooseEq : List Char → Bool
  | a :: '=' :: '=' :: b :: rest =>
    (a ≠ '=' && a ≠ '!' && b ≠ '=') || hasLooseEq ('=' :: '=' :: b :: rest)
  | _ :: t => hasLooseEq t
  | [] => false

/-- The global replacement `.replace(/([^=!])==([^=])/g, '$1===$2')`:
left-to-right scan, a match consumes its four characters. -/
def replaceLooseEqAux : List Char → List Char
  | a :: '=' :: '=' :: b :: rest =>
    if a ≠ '=' ∧ a ≠ '!' ∧ b ≠ '=' then
      a :: '=' :: '=' :: '=' :: b :: replaceLooseEqAux rest
    else a :: replaceLooseEqAux ('=' :: '=' :: b :: rest)
  | a :: t => a :: replaceLooseEqAux t
  | [] => []

def isQuoteCh (c : Char) : Bool := c = '"' || c.val = 39

/-- After a secret keyword: `\s*=\s*['"][^'"]+['"]`. -/
def eqQuoteBodyAt (r : List Char) : Bool :=
  match r.dropWhile isJsSpace with
  | '=' :: r2 =>
    match r2.dropWhile isJsSpace with
    | q :: r4 =>
      if isQuoteCh q then
        !(r4.takeWhile (fun x => !isQuoteCh x)).isEmpty &&
          !(r4.dropWhile (fun x => !isQuoteCh x)).isEmpty
      else false
    | [] => false
  | _ => false

/-- Keyword alternative `(password|secret|api_key)` on a lowercased line. -/
def secretKeywordAt (l : List Char) : Option (List Char) :=
  if "password".data.isPrefixOf l then some (l.drop 8)
  else if "secret".data.isPrefixOf l then some (l.drop 6)
  else if "api_key".data.isPrefixOf l then some (l.drop 7)
  else none

def hasSecretAssignAux : List Char → Bool
  | [] => false
  | c :: t =>
    (match secretKeywordAt (c :: t) with
     | some r => eqQuoteBodyAt r
     | none => false) || hasSecretAssignAux t

/-- The test `/(password|secret|api_key)\s*=\s*['"][^'"]+['"]/i`; the
`i` flag is embedded by lowercasing the line (every non-alphabetic part
of the pattern is case-neutral). -/
def hasSecretAssign (l : List Char) : Bool := hasSecretAssignAux (lowerList l)

/-- Leftmost match of `/=\s*['"][^'"]+['"]/`, replaced by
`= process.env.SECRET_VALUE`. -/
def replaceSecretAux : List Char → Option (List Char)
  | [] => none
  | c :: t =>
    if c = '=' then
      match t.dropWhile isJsSpace with
      | q :: r4 =>
        if isQuoteCh q ∧ !(r4.takeWhile (fun x => !isQuoteCh x)).isEmpty ∧
            !(r4.dropWhile (fun x => !isQuoteCh x)).isEmpty then
          some ("= process.env.SECRET_VALUE".data ++
            (r4.dropWhile (fun x => !isQuoteCh x)).drop 1)
        else (c :: ·) <$> replaceSecretAux t
      | [] => (c :: ·) <$> replaceSecretAux t
    else (c :: ·) <$> replaceSecretAux t

def replaceSecret (l : List Char) : List Char := (replaceSecretAux l).getD l

/-- The test `/\.\w+/`. -/
def hasDotWord : List Char → Bool
  | '.' :: c :: t => isWordChar c || hasDotWord (c :: t)
  | _ :: t => hasDotWord t
  | [] => false

def hasOptChain (l : List Char) : Bool := listIsInfix "?.".data l

/-- The global replacement `.replace(/(\w+)\.(\w+)/g, '$1?.$2')`: a
match is a maximal word run followed by a dot and at least one word
character; the scan resumes after the second word run. -/
def insOptChainAux (l : List Char) : List Char :=
  match l with
  | [] => []
  | c :: t =>
    if isWordChar c then
      let r1 := (c :: t).takeWhile isWordChar
      match h : (c :: t).dropWhile isWordChar with
      | '.' :: r =>
        if (r.takeWhile isWordChar).isEmpty then r1 ++ '.' :: insOptChainAux r
        else r1 ++ '?' :: '.' :: r.takeWhile isWordChar ++
          insOptChainAux (r.dropWhile isWordChar)
      | rest => r1 ++ insOptChainAux rest
    else c :: insOptChainAux t
termination_by l.length
decreasing_by
  · rename_i hw _
    have h2 := (@List.dropWhile_suffix _ (c :: t) isWordChar).length_le
    rw [h] at h2
    simp at h2
    simp only [List.length_cons]
    omega
  · rename_i hw _
    have h2 := (@List.dropWhile_suffix _ (c :: t) isWordChar).length_le
    rw [h] at h2
    have h3 := (@List.dropWhile_suffix _ r isWordChar).length_le
    simp at h2
    simp only [List.length_cons]
    omega
  · rename_i hw
    rw [List.dropWhile_cons, if_pos hw] at h
    have h2 := (@List.dropWhile_suffix _ t isWordChar).length_le
    rw [h] at h2
    simp
    omega
  · simp

def hasTab (l : List Char) : Bool := l.any (· = '\t')

def tabsToSpaces (l : List Char) : List Char :=
  l.foldr (fun c acc => if c = '\t' then "    ".data ++ acc else c :: acc) []

def startsImport (l : List Char) : Bool :=
  "import".data.isPrefixOf l || "from".data.isPrefixOf l || "require".data.isPrefixOf l

/-- The `switch (issue.bug_type)` of `FixAgent._ruleBasedFix`, acting on
the offending line.  Returns `(fixed, new line, description)`; in the
LOGIC case later sub-rules overwrite earlier ones, each rewriting the
original line, exactly as the source assigns `lines[lineIdx]` from
`line` in sequence. -/
def applyLineRules (bugType file : String) (line : List Char) : Bool × List Char × String :=
  if bugType = "SYNTAX" then
    let t := jsTrim line
    if isJsTsFile file && !(t.getLast? = some ';') && !(t.getLast? = some '{') &&
        !(t.getLast? = some '}') && !(t.getLast? = some ',') &&
        !("//".data.isPrefixOf t) && !("/*".data.isPrefixOf t) &&
        !("*".data.isPrefixOf t) && t.length > 0 then
      (true, jsTrimRight line ++ [';'], "Added missing semicolon")
    else (false, line, "")
  else if bugType = "LINTING" then
    if containsConsoleCall line then
      (true, "// ".data ++ jsTrim line ++ " // Removed by AI-AGENT".data,
        "Commented out console statement")
    else (false, line, "")
  else if bugType = "LOGIC" then
    let s0 := (false, line, "")
    let s1 := if hasEvalCall line then
        (true, replaceEvalCall line, "Replaced eval() with Function()") else s0
    let s2 := if hasLooseEq line then
        (true, replaceLooseEqAux line, "Fixed loose equality to strict equality") else s1
    if hasSecretAssign line then
      (true, replaceSecret line, "Replaced hardcoded secret with environment variable")
    else s2
  else if bugType = "TYPE_ERROR" then
    if hasDotWord line && !hasOptChain line then
      (true, insOptChainAux line, "Added optional chaining for null safety")
    else (false, line, "")
  else if bugType = "IMPORT" then
    if startsImport line then
      (true, "// ".data ++ line ++ " // TODO: Fix import".data, "Commented out broken import")
    else (false, line, "")
  else if bugType = "INDENTATION" then
    if hasTab line then (true, tabsToSpaces line, "Fixed indentation (tabs to spaces)")
    else (false, line, "")
  else (false, line, "")

/-- `FixAgent._ruleBasedFix(issue, originalContent)`. -/
def ruleBasedFix (issue : Issue) (originalContent : String) : FixResult :=
  let lines := splitNlChars originalContent.data
  let lineIdx : Int := issue.line - 1
  if lineIdx < 0 ∨ (lines.length : Int) ≤ lineIdx then
    { success := false, fixedCode := originalContent, commitMessage := ""
      explanation := "Line out of range" }
  else
    let idx := lineIdx.toNat
    let res := applyLineRules issue.bug_type issue.file (lines.getD idx [])
    { success := res.1
      fixedCode := String.mk (joinNlChars (lines.set idx res.2.1))
      commitMessage :=
        if res.1 then "[AI-AGENT] Fix " ++ lowerStr issue.bug_type ++ " in " ++ issue.file
        else ""
      explanation := if res.1 then res.2.2 else "Could not auto-fix this issue" }

def startMarker : List Char := "===FIXED_CODE_START===".data

def endMarker : List Char := "===FIXED_CODE_END===".data

/-- The capture of `/===FIXED_CODE_START===\s*\n?([\s\S]*?)===FIXED_CODE_END===/`,
up to surrounding whitespace (the caller trims, so the greedy `\s*\n?`
prefix is absorbed). -/
def extractDelimited (text : List Char) : Option (List Char) :=
  match splitFirstInfix startMarker text with
  | none => none
  | some (_, rest) =>
    match splitFirstInfix endMarker rest with
    | none => none
    | some (between, _) => some between

/-- `.` of a JS regex without the `s` flag: any character except a line
terminator. -/
def jsDotChar (c : Char) : Bool :=
  !(c = '\n' || c = '\r' || c.val = 0x2028 || c.val = 0x2029)

def takeToNlOrEqs : List Char → Option (List Char)
  | [] => none
  | c :: t =>
    if "===".data.isPrefixOf (c :: t) then some []
    else if c = '\n' then some []
    else if !jsDotChar c then none
    else (c :: ·) <$> takeToNlOrEqs t

/-- The capture of `/===COMMIT_MESSAGE===\s*\n?(.*?)(?:\n|===)/`. -/
def extractCommitMsg (text : List Char) : Option (List Char) :=
  match splitFirstInfix "===COMMIT_MESSAGE===".data text with
  | none => none
  | some (_, rest) => takeToNlOrEqs (rest.dropWhile isJsSpace)

/-- The capture of `/===EXPLANATION===\s*\n?([\s\S]*?)$/`. -/
def extractExplanation (text : List Char) : Option (List Char) :=
  (fun p => p.2.dropWhile isJsSpace) <$>
    splitFirstInfix "===EXPLANATION===".data text

/-- The capture of the fenced-block fallback `/```[\w]*\n([\s\S]*?)```/`. -/
def extractFenced : List Char → Option (List Char)
  | [] => none
  | c :: t =>
    if "```".data.isPrefixOf (c :: t) then
      match ((c :: t).drop 3).dropWhile isWordChar with
      | '\n' :: r2 =>
        match splitFirstInfix "```".data r2 with
        | some (cap, _) => some cap
        | none => extractFenced t
      | _ => extractFenced t
    else extractFenced t

/-- `FixAgent._parseAIResponse(text, issue, originalContent)`. -/
def parseAIResponse (text : String) (issue : Issue) (originalContent : String) : FixResult :=
  match extractDelimited text.data with
  | some raw =>
    let fixedCode := String.mk (jsTrim raw)
    let commitMessage :=
      orDefault
        (match extractCommitMsg text.data with
         | some m => String.mk (jsTrim m)
         | none => "")
        ("[AI-AGENT] Fix " ++ lowerStr issue.bug_type ++ " in " ++ issue.file)
    let explanation :=
      orDefault
        (match extractExplanation text.data with
         | some e => String.mk (jsTrim e)
         | none => "")
        ("Fixed " ++ issue.bug_type ++ " issue")
    if 10 * fixedCode.length < 3 * originalContent.length ∨
        3 * originalContent.length < fixedCode.length then
      ruleBasedFix issue originalContent
    else
      { success := true
        fixedCode := fixedCode
        commitMessage :=
          if "[AI-AGENT]".data.isPrefixOf commitMessage.data then commitMessage
          else "[AI-AGENT] " ++ commitMessage
        explanation := explanation }
  | none =>
    match extractFenced text.data with
    | some code =>
      { success := true
        fixedCode := String.mk (jsTrim code)
        commitMessage := "[AI-AGENT] Fix " ++ lowerStr issue.bug_type ++ " in " ++ issue.file
        explanation := "Fixed " ++ issue.bug_type ++ " issue at line " ++ toString issue.line }
    | none => ruleBasedFix issue originalContent

/-! ## CIAgent.waitForChecks (C3)

Source `CIAgent.waitForChecks`.  The Checks/Status API responses are an
oracle `polls : Nat → PollOutcome` giving the data seen by the k-th
poll; an API error caught by the `try/catch` is `PollOutcome.err`.
Time: each continue sleeps 15 s and network time is not counted, so
the `while (Date.now() - start < timeoutMs)` loop performs exactly
`⌈timeoutMs / 15000⌉` polls before returning the timeout result. -/

structure CheckNote where
  path : String
  startLine : Int
  message : String
  level : String
  deriving DecidableEq, Repr

structure CheckRun where
  name : String
  status : String
  conclusion : String
  notes : List CheckNote
  outputText : String
  outputSummary : String
  deriving DecidableEq, Repr

structure CommitStatus where
  context : String
  state : String
  description : String
  targetUrl : String
  deriving DecidableEq, Repr

structure FailLogEntry where
  source : String
  file : Option String
  line : Option Int
  message : String
  level : String
  url : Option String
  deriving DecidableEq, Repr

inductive PollOutcome where
  | ok (checks : List CheckRun) (statuses : List CommitStatus)
  | err
  deriving DecidableEq, Repr

/-- `CIAgent._extractFailureLogs`: annotation entries when the failed
check has any, otherwise a single entry from the check output (with the
JS falsy chain `output?.text || output?.summary || 'Check failed (no
details)'`); then one entry per failed status.  A `listAnnotations`
error (caught in the source) is represented by an empty `notes` list
together with empty output fields. -/
def extractFailureLogs (failedChecks : List CheckRun) (failedStatuses : List CommitStatus) :
    List FailLogEntry :=
  (failedChecks.map (fun c =>
    if c.notes.isEmpty then
      [⟨c.name, none, none, orDefault c.outputText
          (orDefault c.outputSummary "Check failed (no details)"), "failure", none⟩]
    else c.notes.map (fun n => ⟨c.name, some n.path, some n.startLine, n.message, n.level, none⟩))).flatten
  ++ failedStatuses.map (fun s =>
      ⟨s.context, none, none, orDefault s.description "Status check failed", "failure",
        some s.targetUrl⟩)

/-- `CIAgent._summarizeChecks`: `(name, conclusion || status)` per check
run, `(context, state)` per commit status. -/
def summarizeChecks (checks : List CheckRun) (statuses : List CommitStatus) :
    List (String × String) :=
  checks.map (fun c => (c.name, orDefault c.conclusion c.status)) ++
    statuses.map (fun s => (s.context, s.state))

structure WaitResult where
  status : String
  checks : List (String × String)
  failureLogs : List FailLogEntry
  deriving DecidableEq, Repr

/-- The result computed once polling stops: `PASSED` iff no check run
concluded failure/timed_out/cancelled and no status is failure/error. -/
def evalCompletedPoll (checks : List CheckRun) (statuses : List CommitStatus) : WaitResult :=
  let failedChecks := checks.filter
    (fun c => c.conclusion = "failure" || c.conclusion = "timed_out" || c.conclusion = "cancelled")
  let failedStatuses := statuses.filter (fun s => s.state = "failure" || s.state = "error")
  if !failedChecks.isEmpty || !failedStatuses.isEmpty then
    ⟨"FAILED", summarizeChecks checks statuses, extractFailureLogs failedChecks failedStatuses⟩
  else ⟨"PASSED", summarizeChecks checks statuses, []⟩

/-- The stopping condition actually implemented by the polling loop:
at least one of the two lists is non-empty, every check run has status
`completed`, and no commit status is `pending`. -/
def codeTerminal (checks : List CheckRun) (statuses : List CommitStatus) : Bool :=
  !(checks.isEmpty && statuses.isEmpty) &&
  (checks.filter (fun c => c.status ≠ "completed")).isEmpty &&
  (statuses.filter (fun s => s.state = "pending")).isEmpty

def pollTerminal : PollOutcome → Bool
  | .ok checks statuses => codeTerminal checks statuses
  | .err => false

/-- The timeout return value of `waitForChecks`: a single failure-log
entry with source `timeout` (its other fields are absent in the JS
object literal). -/
def timeoutResult : WaitResult :=
  ⟨"FAILED", [], [⟨"timeout", none, none, "CI check timed out", "", none⟩]⟩

def waitForChecksAux (polls : Nat → PollOutcome) : Nat → Nat → WaitResult
  | _, 0 => timeoutResult
  | k, fuel + 1 =>
    match polls k with
    | .err => waitForChecksAux polls (k + 1) fuel
    | .ok checks statuses =>
      if checks.isEmpty && statuses.isEmpty then waitForChecksAux polls (k + 1) fuel
      else if !(checks.filter (fun c => c.status ≠ "completed")).isEmpty ||
          !(statuses.filter (fun s => s.state = "pending")).isEmpty then
        waitForChecksAux polls (k + 1) fuel
      else evalCompletedPoll checks statuses

def pollCount (timeoutMs : Nat) : Nat := (timeoutMs + 14999) / 15000

/-- `CIAgent.waitForChecks(commitSha, timeoutMs)`. -/
def waitForChecks (polls : Nat → PollOutcome) (timeoutMs : Nat) : WaitResult :=
  waitForChecksAux polls 0 (pollCount timeoutMs)

/-- The value returned at the first terminal poll (an `err` poll is
never terminal; the `err` arm is unreachable and maps to the timeout
value). -/
def terminalResult : PollOutcome → WaitResult
  | .ok checks statuses => evalCompletedPoll checks statuses
  | .err => timeoutResult

/-- The terminal condition as the claim words it: BOTH lists non-empty,
no check queued or in_progress, no status pending. -/
def specTerminal : PollOutcome → Bool
  | .err => false
  | .ok checks statuses =>
    !checks.isEmpty && !statuses.isEmpty &&
    checks.all (fun c => c.status ≠ "queued" && c.status ≠ "in_progress") &&
    statuses.all (fun s => s.state ≠ "pending")

/-! ## Orchestrator (C1, C4, C6)

Source `Orchestrator.run`, `Orchestrator._applyFixes`,
`Orchestrator._ciRetryLoop` (the class the `RepoHealerEngine`
instantiates with `maxRetries: 5`).  External collaborators are an
oracle environment indexed by call counters, so stateful behaviours are
representable.  Wall-clock time is a `Nat` counter that advances at
each observable event.  `monitorVisits` and `applyFixesCalls` are ghost
counters recording visits to the MONITOR_CI body (one `waitForChecks`
call each) and invocations of `_applyFixes` (the GENERATE_FIXES node).
The engine-level result fields not touched by these claims
(`fixesApplied` etc.) are carried for fidelity. -/

structure Fix where
  file : String
  line : Int
  bug_type : String
  commitMessage : String
  status : String
  explanation : String
  deriving DecidableEq, Repr

structure TimelineEntry where
  iteration : Nat
  timestamp : Nat
  status : String
  deriving DecidableEq, Repr

inductive FixOutcome where
  | ok (r : FixResult)
  | thrown (msg : String)
  deriving DecidableEq, Repr

structure LoopCIResult where
  status : String
  failureLogs : List FailLogEntry
  deriving DecidableEq, Repr

structure OrchEnv where
  hasCi : Bool
  ciResult : Nat → LoopCIResult
  getFileContent : Nat → String → Option String
  generateFix : Nat → Issue → String → FixOutcome
  commitOk : Nat → String → Bool
  prUrl : String

structure OrchState where
  fixes : List Fix
  ciTimeline : List TimelineEntry
  retryCount : Nat
  clock : Nat
  fixCalls : Nat
  commitCalls : Nat
  contentCalls : Nat
  monitorVisits : Nat
  applyFixesCalls : Nat
  deriving DecidableEq, Repr

def initState : OrchState := ⟨[], [], 0, 0, 0, 0, 0, 0, 0⟩

/-- Grouping `issuesByFile` built with object-key insertion order. -/
def groupByFile (issues : List Issue) : List (String × List Issue) :=
  issues.foldl (fun acc i =>
    if acc.any (fun p => p.1 = i.file) then
      acc.map (fun p => if p.1 = i.file then (p.1, p.2 ++ [i]) else p)
    else acc ++ [(i.file, [i])]) []

/-- The inner issue loop of `_applyFixes` for one file: threads the
evolving buffer, collects commit messages, appends one `Fix` record per
issue, counts `generateFix` calls (oracle index) and applied fixes. -/
def processIssues (env : OrchEnv) (filePath : String) :
    List Issue → String → List String → List Fix → Nat → Nat →
      String × List String × List Fix × Nat × Nat
  | [], current, msgs, fxs, k, a => (current, msgs, fxs, k, a)
  | issue :: rest, current, msgs, fxs, k, a =>
    match env.generateFix k issue current with
    | .ok fix =>
      if fix.success = true ∧ fix.fixedCode ≠ current then
        processIssues env filePath rest fix.fixedCode (msgs ++ [fix.commitMessage])
          (fxs ++ [⟨filePath, issue.line, issue.bug_type, fix.commitMessage, "applied",
            fix.explanation⟩]) (k + 1) (a + 1)
      else
        processIssues env filePath rest current msgs
          (fxs ++ [⟨filePath, issue.line, issue.bug_type, "", "unfixable",
            orDefault fix.explanation "No fix available"⟩]) (k + 1) a
    | .thrown m =>
      processIssues env filePath rest current msgs
        (fxs ++ [⟨filePath, issue.line, issue.bug_type, "", "error", m⟩]) (k + 1) a

/-- The commit-error recovery: every applied fix of the file (session
wide, `this.fixes`) is demoted to `commit_failed`. -/
def demoteApplied (fixes : List Fix) (filePath : String) : List Fix :=
  fixes.map (fun f =>
    if f.file = filePath ∧ f.status = "applied" then { f with status := "commit_failed" } else f)

/-- One file of `_applyFixes`: fetch content (a JS-falsy empty string
behaves like a missing file), run the issue loop, then commit the
buffer when it changed, demoting on commit error. -/
def processFile (env : OrchEnv) (acc : OrchState × Nat) (grp : String × List Issue) :
    OrchState × Nat :=
  let st := acc.1
  let content? :=
    match env.getFileContent st.contentCalls grp.1 with
    | some c => if c = "" then none else some c
    | none => none
  match content? with
  | none =>
    ({ st with
        contentCalls := st.contentCalls + 1
        fixes := st.fixes ++ grp.2.map (fun i =>
          ⟨grp.1, i.line, i.bug_type, "", "skipped", "File not found on branch"⟩) }, acc.2)
  | some content =>
    let r := processIssues env grp.1 grp.2 content [] [] st.fixCalls 0
    let st1 := { st with
      contentCalls := st.contentCalls + 1
      fixes := st.fixes ++ r.2.2.1
      fixCalls := r.2.2.2.1 }
    let st2 :=
      if r.1 ≠ content ∧ r.2.1 ≠ [] then
        if env.commitOk st1.commitCalls grp.1 then
          { st1 with commitCalls := st1.commitCalls + 1 }
        else
          { st1 with
            commitCalls := st1.commitCalls + 1
            fixes := demoteApplied st1.fixes grp.1 }
      else st1
    (st2, acc.2 + r.2.2.2.2)

/-- `Orchestrator._applyFixes(issues)`: returns the new state and the
length of the `appliedFixes` array the source returns. -/
def applyFixes (env : OrchEnv) (st : OrchState) (issues : List Issue) : OrchState × Nat :=
  (groupByFile issues).foldl (processFile env)
    ({ st with applyFixesCalls := st.applyFixesCalls + 1 }, 0)

/-- `Orchestrator._classifyCIFailure(log)`. -/
def classifyCIFailure (msg : String) : String :=
  let m := lowerList msg.data
  if listIsInfix "syntax".data m then "SYNTAX"
  else if listIsInfix "import".data m || listIsInfix "module".data m then "IMPORT"
  else if listIsInfix "type".data m || listIsInfix "undefined".data m then "TYPE_ERROR"
  else if listIsInfix "indent".data m || listIsInfix "whitespace".data m then "INDENTATION"
  else if listIsInfix "lint".data m then "LINTING"
  else "LOGIC"

/-- `log.file || 'unknown'` (JS falsy default). -/
def logFileName : Option String → String
  | some s => if s = "" then "unknown" else s
  | none => "unknown"

/-- The issue built from a CI failure log (`code_snippet`, always the
empty string in the source, is not carried). -/
def ciIssueOfLog (log : FailLogEntry) : Issue :=
  ⟨logFileName log.file, log.line.getD 0, classifyCIFailure log.message, log.message, "ci"⟩

/-- The `while (this.retryCount < this.maxRetries)` loop of
`_ciRetryLoop`, fuel = `maxRetries - retryCount`, so fuel 0 is exactly
the loop guard failing (max retries exhausted → FAILED). -/
def ciLoop (env : OrchEnv) (maxRetries : Nat) : Nat → OrchState → String × OrchState
  | 0, st => ("FAILED", st)
  | fuel + 1, st =>
    let rc := st.retryCount + 1
    let res := env.ciResult rc
    let st1 : OrchState :=
      { st with
        retryCount := rc
        monitorVisits := st.monitorVisits + 1
        ciTimeline := st.ciTimeline ++ [⟨rc, st.clock, res.status⟩]
        clock := st.clock + 1 }
    if res.status = "PASSED" then ("PASSED", st1)
    else if maxRetries ≤ rc then ("FAILED", st1)
    else
      let ciIssues := res.failureLogs.map ciIssueOfLog
      let st2 :=
        if ciIssues.length > 0 then
          (applyFixes env st1 (ciIssues.filter (fun i => i.file ≠ "" ∧ i.file ≠ "unknown"))).1
        else st1
      ciLoop env maxRetries fuel { st2 with clock := st2.clock + 1 }

/-- `Orchestrator._ciRetryLoop`: the `hasCIConfigured` fast path pushes
the single NO_CI timeline row with `iteration: 0`. -/
def ciRetryLoop (env : OrchEnv) (maxRetries : Nat) (st : OrchState) : String × OrchState :=
  if !env.hasCi then
    ("NO_CI", { st with
      ciTimeline := st.ciTimeline ++ [⟨0, st.clock, "NO_CI"⟩]
      clock := st.clock + 1 })
  else ciLoop env maxRetries (maxRetries - st.retryCount) st

structure RunResult where
  fixesApplied : Nat
  ciStatus : String
  retryCount : Nat
  prUrl : Option String
  fixes : List Fix
  ciTimeline : List TimelineEntry
  deriving DecidableEq, Repr

/-- `Orchestrator.run(issues)`: apply fixes, short-circuit to SKIPPED
with no PR when nothing was applied, otherwise create the PR and run
the CI retry loop. -/
def runOrchestrator (env : OrchEnv) (maxRetries : Nat) (issues : List Issue) :
    RunResult × OrchState :=
  let r1 := applyFixes env initState issues
  if r1.2 = 0 then
    (⟨0, "SKIPPED", 0, none, r1.1.fixes, r1.1.ciTimeline⟩, r1.1)
  else
    let r2 := ciRetryLoop env maxRetries r1.1
    (⟨(r2.2.fixes.filter (fun f => f.status = "applied")).length, r2.1, r2.2.retryCount,
      some env.prUrl, r2.2.fixes, r2.2.ciTimeline⟩, r2.2)

/-- Number of fixes currently carrying status `applied`. -/
def countApplied (l : List Fix) : Nat :=
  (l.filter (fun f => f.status = "applied")).length

/-- Timeline invariant maintained by the CI retry loop: iterations are
the 1-based attempt numbers in order, one entry per attempt, with
timestamps below the current clock and pairwise non-decreasing. -/
def tlInv (st : OrchState) : Prop :=
  st.ciTimeline.map (fun e => e.iteration) = List.range' 1 st.ciTimeline.length ∧
  st.ciTimeline.length = st.retryCount ∧
  List.Pairwise (fun e1 e2 => e1.timestamp ≤ e2.timestamp) st.ciTimeline ∧
  (∀ e ∈ st.ciTimeline, e.timestamp < st.clock)

/-! ## Installation webhook handler (C9)

Source `handleInstallation` of the webhook route; the Prisma store is
an explicit record with auto-increment counters. `findUnique` on the
unique column `githubRepoId` is the first (only) match. -/

structure InstRepo where
  id : Nat
  name : String
  fullName : String
  deriving DecidableEq, Repr

structure InstPayload where
  action : String
  installationId : Nat
  accountLogin : String
  senderId : Nat
  senderLogin : String
  senderAvatar : String
  repositories : List InstRepo
  repositoriesAdded : List InstRepo
  deriving DecidableEq, Repr

structure DbUser where
  id : Nat
  githubId : String
  name : String
  avatarUrl : String
  deriving DecidableEq, Repr

structure DbProject where
  id : Nat
  ownerId : Nat
  repoName : String
  repoOwner : String
  repoUrl : String
  githubRepoId : Nat
  installationId : String
  deriving DecidableEq, Repr

structure DbRule where
  projectId : Nat
  description : String
  language : String
  tsQuery : String
  severity : String
  isActive : Bool
  deriving DecidableEq, Repr

structure Db where
  users : List DbUser
  projects : List DbProject
  rules : List DbRule
  nextUserId : Nat
  nextProjectId : Nat
  deriving DecidableEq, Repr

/-- `DEFAULT_SECURITY_RULES` (description, language, query, severity). -/
def defaultSecurityRules : List (String × String × String × String) :=
  [("Prevent hardcoded API keys, passwords, tokens, or credentials in source code",
      "javascript", "(string) @secret", "CRITICAL"),
   ("Avoid using weak or deprecated cryptographic algorithms like MD5 or SHA1",
      "javascript", "(call_expression) @weak_crypto", "CRITICAL"),
   ("Avoid hardcoding URLs in source code. Use configuration or environment variables",
      "javascript", "(string) @hardcoded_url", "WARNING"),
   ("Avoid using eval() or exec() which can execute arbitrary code - security risk",
      "javascript", "(call_expression) @eval_exec", "CRITICAL"),
   ("Use cryptographically secure random number generators, not Math.random()",
      "javascript", "(call_expression) @insecure_random", "WARNING"),
   ("Never disable SSL certificate verification. This makes connections vulnerable to MITM attacks",
      "javascript", "(pair) @ssl_disabled", "CRITICAL"),
   ("Avoid using pickle for untrusted data - security risk for Python deserialization",
      "python", "(call) @pickle_usage", "CRITICAL"),
   ("Avoid document.write() as it can overwrite the entire DOM - XSS risk",
      "javascript", "(call_expression) @document_write", "WARNING")]

def findOrCreateUser (db : Db) (githubId name avatar : String) : Nat × Db :=
  match db.users.find? (fun u => u.githubId = githubId) with
  | some u => (u.id, db)
  | none =>
    (db.nextUserId,
     { db with
       users := db.users ++ [⟨db.nextUserId, githubId, name, avatar⟩]
       nextUserId := db.nextUserId + 1 })

def seedRules (db : Db) (projectId : Nat) : Db :=
  let newRules : List DbRule :=
    defaultSecurityRules.map (fun r => ⟨projectId, r.1, r.2.1, r.2.2.1, r.2.2.2, true⟩)
  { db with rules := db.rules ++ newRules }

/-- One repository of the `created` branch: update `installationId` of
the existing project (found by unique `githubRepoId`, updated by
primary key) or create the project and seed its default rules. -/
def stepRepoCreated (instId login : String) (uid : Nat) (db : Db) (repo : InstRepo) : Db :=
  match db.projects.find? (fun p => p.githubRepoId = repo.id) with
  | some existing =>
    { db with projects := db.projects.map (fun p =>
        if p.id = existing.id then { p with installationId := instId } else p) }
  | none =>
    seedRules
      { db with
        projects := db.projects ++
          [⟨db.nextProjectId, uid, repo.name, login, "https://github.com/" ++ repo.fullName,
            repo.id, instId⟩]
        nextProjectId := db.nextProjectId + 1 }
      db.nextProjectId

/-- One repository of the `added` branch: an existing project is left
untouched (`continue`), otherwise create and seed. -/
def stepRepoAdded (instId login : String) (uid : Nat) (db : Db) (repo : InstRepo) : Db :=
  match db.projects.find? (fun p => p.githubRepoId = repo.id) with
  | some _ => db
  | none =>
    seedRules
      { db with
        projects := db.projects ++
          [⟨db.nextProjectId, uid, repo.name, login, "https://github.com/" ++ repo.fullName,
            repo.id, instId⟩]
        nextProjectId := db.nextProjectId + 1 }
      db.nextProjectId

/-- `handleInstallation(payload)`; the `removed` and `deleted` actions
only log. -/
def handleInstallation (p : InstPayload) (db : Db) : Db :=
  if p.action = "created" then
    let u := findOrCreateUser db (toString p.senderId) p.senderLogin p.senderAvatar
    p.repositories.foldl (stepRepoCreated (toString p.installationId) p.accountLogin u.1) u.2
  else if p.action = "added" then
    let u := findOrCreateUser db (toString p.senderId) p.senderLogin p.senderAvatar
    p.repositoriesAdded.foldl (stepRepoAdded (toString p.installationId) p.accountLogin u.1) u.2
  else db

/-- A concrete orchestrator environment: CI configured and green on the
first attempt, file content available, the LLM fix applies, commits
succeed. Closed input for evaluating `runOrchestrator`. -/
def passEnv : OrchEnv :=
  ⟨true, fun _ => ⟨"PASSED", []⟩, fun _ _ => some "orig",
    fun _ _ _ => .ok ⟨true, "better", "[AI-AGENT] fix", "e"⟩,
    fun _ _ => true, "https://example.test/pr/1"⟩

/-- Like `passEnv` but without CI and with every commit failing, so the
applied fixes are all demoted to `commit_failed` before `run` tests the
applied count. -/
def commitFailEnv : OrchEnv :=
  ⟨false, fun _ => ⟨"PASSED", []⟩, fun _ _ => some "orig",
    fun _ _ _ => .ok ⟨true, "better", "[AI-AGENT] fix", "e"⟩,
    fun _ _ => false, "https://example.test/pr/1"⟩

/-- A single concrete issue for closed evaluations. -/
def demoIssue : Issue := ⟨"app.js", 1, "SYNTAX", "missing semicolon", "demo"⟩

/-! # Theorems -/

/-! ## C8 — healing branch name -/

theorem collapseWsAux_no_space (l : List Char) :
    ∀ (b : Bool), ∀ c ∈ collapseWsAux b l, isJsSpace c = false := by
  induction l with
  | nil => intro b c hc; simp [collapseWsAux] at hc
  | cons a t ih =>
    intro b c hc
    by_cases ha : isJsSpace a = true
    · cases b with
      | true =>
        simp only [collapseWsAux, ha, if_true] at hc
        exact ih true c hc
      | false =>
        simp only [collapseWsAux, ha, if_true] at hc
        rcases List.mem_cons.mp hc with h1 | h1
        · subst h1; decide
        · exact ih true c h1
    · simp only [collapseWsAux, ha, if_false, Bool.false_eq_true] at hc
      rcases List.mem_cons.mp hc with h1 | h1
      · subst h1; simpa using ha
      · exact ih false c h1

theorem dropWhile_eq_self_of_all {p : Char → Bool} {l : List Char}
    (h : ∀ c ∈ l, p c = false) : l.dropWhile p = l := by
  cases l with
  | nil => rfl
  | cons a t =>
    rw [List.dropWhile_cons, if_neg]
    simp [h a (List.mem_cons_self a t)]

theorem jsTrim_of_no_space {l : List Char} (h : ∀ c ∈ l, isJsSpace c = false) :
    jsTrim l = l := by
  unfold jsTrim jsTrimLeft
  rw [dropWhile_eq_self_of_all h]
  rw [dropWhile_eq_self_of_all (fun c hc => h c (List.mem_reverse.mp hc))]
  exact List.reverse_reverse l

theorem cleanName_eq_clientCleanName (l : List Char) : cleanName l = clientCleanName l := by
  unfold cleanName clientCleanName collapseWs
  exact jsTrim_of_no_space (collapseWsAux_no_space _ false)

/-- C8 (amended): the healing branch name is
`sanitize(team) + "_" + sanitize(leader) + "_AI_Fix"` where `sanitize`
uppercases, drops every character that is neither in `[A-Z0-9]` nor
whitespace (the source keeps the whole `\s` class, not just the space
character), collapses whitespace runs to `_`, and trims; and the
client-side preview produces exactly the same string as the server for
every input (the final `trim` is a no-op because collapsing leaves no
whitespace). -/
theorem c8_branch_name_amended (team leader : String) :
    clientBranchPreview team leader = generateBranchName team leader ∧
    generateBranchName team leader =
      String.mk (jsTrim (collapseWs ((team.data.map Char.toUpper).filter
        (fun c => isUpperAZ c || isDigit09 c || isJsSpace c)))) ++ "_" ++
      String.mk (jsTrim (collapseWs ((leader.data.map Char.toUpper).filter
        (fun c => isUpperAZ c || isDigit09 c || isJsSpace c)))) ++ "_AI_Fix" := by
  constructor
  · unfold clientBranchPreview generateBranchName
    rw [cleanName_eq_clientCleanName, cleanName_eq_clientCleanName]
  · rfl

/-- C8 (counterexample): the spec's sanitize (`[A-Z0-9 ]`, literal
space only) disagrees with the code on a tab: the code keeps the tab
as whitespace and collapses it to `_`, the spec's wording drops it. -/
theorem c8_spec_sanitize_counterexample :
    generateBranchName "A\tB" "C" = "A_B_C_AI_Fix" ∧
    specWordedBranchName "A\tB" "C" = "AB_C_AI_Fix" ∧
    generateBranchName "A\tB" "C" ≠ specWordedBranchName "A\tB" "C" := by
  refine ⟨rfl, rfl, ?_⟩
  decide

/-! ## C7 — ASTEngine suppression -/

theorem listIsInfix_map (f : Char → Char) {n h : List Char} (hi : listIsInfix n h = true) :
    listIsInfix (n.map f) (h.map f) = true := by
  induction h with
  | nil =>
    simp only [listIsInfix, List.isEmpty_eq_true] at hi
    subst hi
    rfl
  | cons c t ih =>
    simp only [listIsInfix, Bool.or_eq_true] at hi
    rcases hi with h1 | h1
    · have h2 := (List.isPrefixOf_iff_prefix.mp h1).map f
      simp only [List.map_cons, listIsInfix, Bool.or_eq_true]
      exact Or.inl (List.isPrefixOf_iff_prefix.mpr (by simpa using h2))
    · simp only [List.map_cons, listIsInfix, Bool.or_eq_true]
      exact Or.inr (ih h1)

theorem claim_implies_code_suppressed (lines : List String) (row : Nat)
    (h : claimSuppressed lines row = true) : isSuppressed lines row = true := by
  have lower_fix : ∀ m ∈ suppressionMarkers, m.map Char.toLower = m := by decide
  unfold claimSuppressed at h
  simp only [Bool.or_eq_true, Bool.and_eq_true, List.any_eq_true, decide_eq_true_eq] at h
  unfold isSuppressed markerHit lowerList
  simp only [Bool.or_eq_true, List.any_eq_true]
  rcases h with ⟨mk, hmk, hinf⟩ | ⟨hrow, mk, hmk, hinf⟩
  · refine Or.inl ⟨mk, hmk, ?_⟩
    have h2 := listIsInfix_map Char.toLower hinf
    rwa [lower_fix mk hmk] at h2
  · refine Or.inr ⟨mk, hmk, ?_⟩
    have h2 := listIsInfix_map Char.toLower hinf
    rw [lower_fix mk hmk] at h2
    simpa [hrow] using h2

theorem foldl_append_eq {α β : Type} (h : α → List β) (l : List α) (acc : List β) :
    l.foldl (fun a x => a ++ h x) acc = acc ++ (l.map h).flatten := by
  induction l generalizing acc with
  | nil => simp
  | cons x t ih => simp [ih, List.append_assoc]

theorem analyzeViolations_not_suppressed (lines : List String)
    (rms : List (AstRule × List AstMatch)) :
    ∀ v ∈ analyzeViolations lines rms, isSuppressed lines (v.line - 1) = false := by
  intro v hv
  unfold analyzeViolations at hv
  rw [foldl_append_eq] at hv
  simp only [List.nil_append, List.mem_flatten, List.mem_map] at hv
  obtain ⟨vs, ⟨rm, _hrm, rfl⟩, hv⟩ := hv
  obtain ⟨m, _hm, hemit⟩ := List.mem_filterMap.mp hv
  unfold emitViolation at hemit
  cases hfind : findTargetCapture m.captures with
  | none => rw [hfind] at hemit; exact absurd hemit (by simp)
  | some cap =>
    rw [hfind] at hemit
    dsimp only at hemit
    by_cases hs : isSuppressed lines cap.row = true
    · rw [if_pos hs] at hemit; exact absurd hemit (by simp)
    · rw [if_neg hs] at hemit
      have hline : v.line = cap.row + 1 := by
        cases hemit; rfl
      rw [hline]
      simpa using hs

/-- C7: if the line containing the match's start (the target capture's
start row) or the immediately preceding line contains one of the
markers `codeguard-ignore`, `noqa`, `eslint-disable`, `@suppress`, the
match yields no violation, and every violation `analyze` emits starts
on a line that is not suppression-marked. -/
theorem c7_suppression_no_violation (lines : List String)
    (rms : List (AstRule × List AstMatch)) (rule : AstRule) (m : AstMatch) (cap : AstCapture)
    (hcap : findTargetCapture m.captures = some cap)
    (hsup : claimSuppressed lines cap.row = true) :
    emitViolation lines rule m = none ∧
    ∀ v ∈ analyzeViolations lines rms, claimSuppressed lines (v.line - 1) = false := by
  constructor
  · unfold emitViolation
    rw [hcap]
    dsimp only
    rw [if_pos (claim_implies_code_suppressed _ _ hsup)]
  · intro v hv
    have h2 := analyzeViolations_not_suppressed lines rms v hv
    by_contra hc
    rw [Bool.not_eq_false] at hc
    rw [claim_implies_code_suppressed _ _ hc] at h2
    cases h2

/-- Witness for C7 at a concrete suppressed match. -/
theorem c7_suppression_no_violation_witness :
    findTargetCapture (AstMatch.mk [⟨"target", 1, 0, 1, 5, "bad()"⟩]).captures =
      some ⟨"target", 1, 0, 1, 5, "bad()"⟩ ∧
    claimSuppressed ["good line", "bad() // codeguard-ignore"] 1 = true ∧
    (emitViolation ["good line", "bad() // codeguard-ignore"]
        ⟨"js-sec-001", "no-bad", "security", "CRITICAL", "do not bad"⟩
        (AstMatch.mk [⟨"target", 1, 0, 1, 5, "bad()"⟩]) = none ∧
      ∀ v ∈ analyzeViolations ["good line", "bad() // codeguard-ignore"]
          [(⟨"js-sec-001", "no-bad", "security", "CRITICAL", "do not bad"⟩,
            [AstMatch.mk [⟨"target", 1, 0, 1, 5, "bad()"⟩]])],
        claimSuppressed ["good line", "bad() // codeguard-ignore"] (v.line - 1) = false) :=
  ⟨by decide, by decide,
    c7_suppression_no_violation ["good line", "bad() // codeguard-ignore"]
      [(⟨"js-sec-001", "no-bad", "security", "CRITICAL", "do not bad"⟩,
        [AstMatch.mk [⟨"target", 1, 0, 1, 5, "bad()"⟩]])]
      ⟨"js-sec-001", "no-bad", "security", "CRITICAL", "do not bad"⟩
      (AstMatch.mk [⟨"target", 1, 0, 1, 5, "bad()"⟩])
      ⟨"target", 1, 0, 1, 5, "bad()"⟩ (by decide) (by decide)⟩

/-! ## C2 — webhook signature verification -/

/-- C2 (code bug exhibit): with the webhook secret configured and
`NODE_ENV ≠ development`, a signature header whose byte length differs
from the expected `sha256=<64 hex>` digest string makes
`crypto.timingSafeEqual` throw, so the route answers 500 instead of the
401 the spec promises for every wrong signature; a wrong signature of
the right length is answered 401 as specified. -/
theorem c2_webhook_bad_signature_500 :
    webhookPost ⟨false, true⟩ (fun _ => String.mk (List.replicate 64 'a')) (fun _ => true)
      (some "pull_request") (some "x") "payload-body" = 500 ∧
    ("x" : String) ≠ "sha256=" ++ String.mk (List.replicate 64 'a') ∧
    webhookPost ⟨false, true⟩ (fun _ => String.mk (List.replicate 64 'a')) (fun _ => true)
      (some "pull_request") (some ("sha256=" ++ String.mk (List.replicate 64 'b')))
      "payload-body" = 401 := by
  decide

/-! ## C5 — FixAgent length sanity check -/

/-- C5 (amended): the 30%–300% length guard applies to the content
parsed from the delimited `===FIXED_CODE_START===` section — an
out-of-range parsed fix is rejected in favour of `_ruleBasedFix` —
but a fix recovered through the fenced-code-block fallback bypasses
the guard. -/
theorem c5_length_guard_amended (text : String) (issue : Issue) (orig : String)
    (raw : List Char) (hd : extractDelimited text.data = some raw)
    (hlen : 10 * (String.mk (jsTrim raw)).length < 3 * orig.length ∨
      3 * orig.length < (String.mk (jsTrim raw)).length) :
    parseAIResponse text issue orig = ruleBasedFix issue orig := by
  unfold parseAIResponse
  rw [hd]
  dsimp only
  rw [if_pos hlen]

/-- Witness for C5 at a concrete under-length delimited response. -/
theorem c5_length_guard_witness :
    extractDelimited ("===FIXED_CODE_START===\nx\n===FIXED_CODE_END===" : String).data =
      some ("\nx\n".data) ∧
    (10 * (String.mk (jsTrim ("\nx\n".data))).length < 3 * ("aaaaaaaaaa" : String).length ∨
      3 * ("aaaaaaaaaa" : String).length < (String.mk (jsTrim ("\nx\n".data))).length) ∧
    parseAIResponse "===FIXED_CODE_START===\nx\n===FIXED_CODE_END==="
      ⟨"a.js", 1, "LOGIC", "", ""⟩ "aaaaaaaaaa" =
      ruleBasedFix ⟨"a.js", 1, "LOGIC", "", ""⟩ "aaaaaaaaaa" :=
  ⟨by decide, by decide,
    c5_length_guard_amended _ _ _ ("\nx\n".data) (by decide) (by decide)⟩

/-- C5 (counterexample): a response with no delimited section but a
fenced code block whose content is 10% of the original is accepted
as a successful fix instead of being replaced by the rule-based
fallback. -/
theorem c5_fenced_block_counterexample :
    parseAIResponse "```\nx\n```" ⟨"a.js", 1, "LOGIC", "", ""⟩ "aaaaaaaaaa" =
      ⟨true, "x", "[AI-AGENT] Fix logic in a.js", "Fixed LOGIC issue at line 1"⟩ ∧
    10 * ("x" : String).length < 3 * ("aaaaaaaaaa" : String).length ∧
    parseAIResponse "```\nx\n```" ⟨"a.js", 1, "LOGIC", "", ""⟩ "aaaaaaaaaa" ≠
      ruleBasedFix ⟨"a.js", 1, "LOGIC", "", ""⟩ "aaaaaaaaaa" := by
  decide

/-! ## C10 — frame property of the rule-based fix -/

theorem splitNlChars_ne_nil (l : List Char) : splitNlChars l ≠ [] := by
  cases l with
  | nil => simp [splitNlChars]
  | cons c t =>
    unfold splitNlChars
    by_cases hc : c = '\n'
    · simp [hc]
    · simp only [hc, if_false]
      cases splitNlChars t <;> simp

theorem splitNlChars_pieces (l : List Char) :
    ∀ p ∈ splitNlChars l, '\n' ∉ p := by
  induction l with
  | nil => intro p hp; simp [splitNlChars] at hp; simp [hp]
  | cons c t ih =>
    intro p hp
    unfold splitNlChars at hp
    by_cases hc : c = '\n'
    · simp only [hc, if_true, List.mem_cons] at hp
      rcases hp with rfl | hp
      · simp
      · exact ih p hp
    · simp only [hc, if_false] at hp
      cases hsp : splitNlChars t with
      | nil => exact absurd hsp (splitNlChars_ne_nil t)
      | cons hd r =>
        rw [hsp] at hp
        rcases List.mem_cons.mp hp with rfl | hp
        · intro hmem
          rcases List.mem_cons.mp hmem with h1 | h1
          · exact hc h1.symm
          · exact ih hd (hsp ▸ List.mem_cons_self hd r) h1
        · exact ih p (hsp ▸ List.mem_cons_of_mem hd hp)

theorem splitNlChars_of_no_nl {x : List Char} (h : '\n' ∉ x) : splitNlChars x = [x] := by
  induction x with
  | nil => rfl
  | cons c t ih =>
    unfold splitNlChars
    have hc : ¬(c = '\n') := fun hcc => h (hcc ▸ List.mem_cons_self c t)
    simp only [hc, if_false]
    rw [ih (fun hm => h (List.mem_cons_of_mem c hm))]

theorem splitNlChars_append_nl {x : List Char} (m : List Char) (h : '\n' ∉ x) :
    splitNlChars (x ++ '\n' :: m) = x :: splitNlChars m := by
  induction x with
  | nil => simp [splitNlChars]
  | cons c t ih =>
    have hc : ¬(c = '\n') := fun hcc => h (hcc ▸ List.mem_cons_self c t)
    have ih2 := ih (fun hm => h (List.mem_cons_of_mem c hm))
    show splitNlChars (c :: (t ++ '\n' :: m)) = _
    conv_lhs => rw [splitNlChars]
    simp only [hc, if_false, ih2]

theorem splitNl_joinNl {L : List (List Char)} (hne : L ≠ [])
    (hnl : ∀ p ∈ L, '\n' ∉ p) : splitNlChars (joinNlChars L) = L := by
  induction L with
  | nil => exact absurd rfl hne
  | cons x r ih =>
    cases r with
    | nil => exact splitNlChars_of_no_nl (hnl x (List.mem_cons_self x []))
    | cons y r2 =>
      show splitNlChars (x ++ '\n' :: joinNlChars (y :: r2)) = _
      rw [splitNlChars_append_nl _ (hnl x (List.mem_cons_self _ _))]
      rw [ih (by simp) (fun p hp => hnl p (List.mem_cons_of_mem x hp))]

theorem mem_of_mem_dropWhile {p : Char → Bool} {l : List Char} {c : Char}
    (h : c ∈ l.dropWhile p) : c ∈ l :=
  (List.dropWhile_suffix p).subset h

theorem mem_of_mem_jsTrim {l : List Char} {c : Char} (h : c ∈ jsTrim l) : c ∈ l := by
  unfold jsTrim jsTrimLeft at h
  rw [List.mem_reverse] at h
  have h2 := mem_of_mem_dropWhile h
  rw [List.mem_reverse] at h2
  exact mem_of_mem_dropWhile h2

theorem mem_of_mem_jsTrimRight {l : List Char} {c : Char} (h : c ∈ jsTrimRight l) : c ∈ l := by
  unfold jsTrimRight at h
  rw [List.mem_reverse] at h
  have h2 := mem_of_mem_dropWhile h
  exact List.mem_reverse.mp h2

theorem replaceEvalAux_mem :
    ∀ (l : List Char) (b : Bool) (res : List Char), replaceEvalAux b l = some res →
      ∀ c ∈ res, c ∈ l ∨ c ∈ ("Function(" : String).data := by
  intro l
  induction l with
  | nil => intro b res h; simp [replaceEvalAux] at h
  | cons a t ih =>
    intro b res h c hc
    unfold replaceEvalAux at h
    by_cases hcond : (!b && "eval".data.isPrefixOf (a :: t) &&
        (((a :: t).drop 4).dropWhile isJsSpace).head? = some '(') = true
    · rw [if_pos hcond] at h
      cases h
      rcases List.mem_append.mp hc with h1 | h1
      · exact Or.inr h1
      · have h2 := mem_of_mem_dropWhile (List.mem_of_mem_drop h1)
        exact Or.inl (List.drop_subset 4 _ h2)
    · rw [if_neg hcond] at h
      cases hrec : replaceEvalAux (isWordChar a) t with
      | none => rw [hrec] at h; simp at h
      | some res2 =>
        rw [hrec] at h
        simp only [Option.map_some, Option.some.injEq] at h
        subst h
        rcases List.mem_cons.mp hc with rfl | h1
        · exact Or.inl (List.mem_cons_self _ _)
        · rcases ih (isWordChar a) res2 hrec c h1 with h2 | h2
          · exact Or.inl (List.mem_cons_of_mem _ h2)
          · exact Or.inr h2

theorem replaceLooseEqAux_mem (l : List Char) :
    ∀ c ∈ replaceLooseEqAux l, c ∈ l ∨ c = '=' := by
  induction l using replaceLooseEqAux.induct with
  | case1 a b rest hcond ih =>
    intro c hc
    rw [replaceLooseEqAux] at hc
    rw [if_pos hcond] at hc
    simp only [List.mem_cons] at hc
    rcases hc with rfl | rfl | rfl | rfl | rfl | hc
    · exact Or.inl (by simp)
    · exact Or.inr rfl
    · exact Or.inr rfl
    · exact Or.inr rfl
    · exact Or.inl (by simp)
    · rcases ih c hc with h2 | h2
      · exact Or.inl (by simp [h2])
      · exact Or.inr h2
  | case2 a b rest hcond ih =>
    intro c hc
    rw [replaceLooseEqAux] at hc
    rw [if_neg hcond] at hc
    rcases List.mem_cons.mp hc with rfl | hc
    · exact Or.inl (List.mem_cons_self _ _)
    · rcases ih c hc with h2 | h2
      · exact Or.inl (List.mem_cons_of_mem _ h2)
      · exact Or.inr h2
  | case3 a t hshape ih =>
    intro c hc
    rw [replaceLooseEqAux] at hc
    · rcases List.mem_cons.mp hc with rfl | hc2
      · exact Or.inl (List.mem_cons_self _ _)
      · rcases ih c hc2 with h3 | h3
        · exact Or.inl (List.mem_cons_of_mem _ h3)
        · exact Or.inr h3
    · exact hshape
  | case4 =>
    intro c hc
    simp [replaceLooseEqAux] at hc

theorem replaceSecretAux_mem :
    ∀ (l : List Char) (res : List Char), replaceSecretAux l = some res →
      ∀ c ∈ res, c ∈ l ∨ c ∈ ("= process.env.SECRET_VALUE" : String).data := by
  intro l
  induction l with
  | nil => intro res h; simp [replaceSecretAux] at h
  | cons a t ih =>
    intro res h c hc
    rw [replaceSecretAux] at h
    by_cases ha : a = '='
    · rw [if_pos ha] at h
      cases hdrop : t.dropWhile isJsSpace with
      | nil =>
        rw [hdrop] at h
        cases hrec : replaceSecretAux t with
        | none => rw [hrec] at h; simp at h
        | some res2 =>
          rw [hrec] at h
          simp only [Option.map_some, Option.some.injEq] at h
          subst h
          rcases List.mem_cons.mp hc with rfl | h1
          · exact Or.inl (List.mem_cons_self _ _)
          · rcases ih res2 hrec c h1 with h2 | h2
            · exact Or.inl (List.mem_cons_of_mem _ h2)
            · exact Or.inr h2
      | cons q r4 =>
        rw [hdrop] at h
        dsimp only at h
        by_cases hcond : isQuoteCh q ∧ !(r4.takeWhile (fun x => !isQuoteCh x)).isEmpty ∧
            !(r4.dropWhile (fun x => !isQuoteCh x)).isEmpty
        · rw [if_pos hcond] at h
          cases h
          rcases List.mem_append.mp hc with h1 | h1
          · exact Or.inr h1
          · have h2 : c ∈ r4 :=
              mem_of_mem_dropWhile (List.mem_of_mem_drop h1)
            have h3 : c ∈ t.dropWhile isJsSpace := by
              rw [hdrop]; exact List.mem_cons_of_mem q h2
            exact Or.inl (List.mem_cons_of_mem a (mem_of_mem_dropWhile h3))
        · rw [if_neg hcond] at h
          cases hrec : replaceSecretAux t with
          | none => rw [hrec] at h; simp at h
          | some res2 =>
            rw [hrec] at h
            simp only [Option.map_some, Option.some.injEq] at h
            subst h
            rcases List.mem_cons.mp hc with rfl | h1
            · exact Or.inl (List.mem_cons_self _ _)
            · rcases ih res2 hrec c h1 with h2 | h2
              · exact Or.inl (List.mem_cons_of_mem _ h2)
              · exact Or.inr h2
    · rw [if_neg ha] at h
      cases hrec : replaceSecretAux t with
      | none => rw [hrec] at h; simp at h
      | some res2 =>
        rw [hrec] at h
        simp only [Option.map_some, Option.some.injEq] at h
        subst h
        rcases List.mem_cons.mp hc with rfl | h1
        · exact Or.inl (List.mem_cons_self _ _)
        · rcases ih res2 hrec c h1 with h2 | h2
          · exact Or.inl (List.mem_cons_of_mem _ h2)
          · exact Or.inr h2

theorem mem_of_mem_takeWhile {p : Char → Bool} {l : List Char} {c : Char}
    (h : c ∈ l.takeWhile p) : c ∈ l :=
  (List.takeWhile_prefix p).subset h

theorem mem_cons_of_dropWhile_eq {p : Char → Bool} {l r : List Char} {q x : Char}
    (hr : l.dropWhile p = q :: r) (hx : x ∈ r) : x ∈ l :=
  mem_of_mem_dropWhile (hr ▸ List.mem_cons_of_mem q hx)

theorem insOptChainAux_mem (l : List Char) :
    ∀ c ∈ insOptChainAux l, c ∈ l ∨ c = '?' ∨ c = '.' := by
  induction l using insOptChainAux.induct with
  | case1 => intro c hc; simp [insOptChainAux] at hc
  | case2 c t hw r hr hemp ih =>
    intro x hx
    rw [insOptChainAux, if_pos hw] at hx
    dsimp only at hx
    split at hx
    · rename_i r2 heq
      rw [hr] at heq
      injection heq with h1 h2
      subst h2
      rw [if_pos hemp] at hx
      rcases List.mem_append.mp hx with h2 | h2
      · exact Or.inl (mem_of_mem_takeWhile h2)
      · rcases List.mem_cons.mp h2 with rfl | h3
        · exact Or.inr (Or.inr rfl)
        · rcases ih x h3 with h4 | h4
          · exact Or.inl (mem_cons_of_dropWhile_eq hr h4)
          · exact Or.inr h4
    · rename_i hneg
      exact (hneg r hr).elim
  | case3 c t hw r hr hemp ih =>
    intro x hx
    rw [insOptChainAux, if_pos hw] at hx
    dsimp only at hx
    split at hx
    · rename_i r2 heq
      rw [hr] at heq
      injection heq with h1 h2
      subst h2
      rw [if_neg hemp] at hx
      simp only [List.mem_append, List.mem_cons] at hx
      rcases hx with (h2 | rfl | rfl | h2) | h2
      · exact Or.inl (mem_of_mem_takeWhile h2)
      · exact Or.inr (Or.inl rfl)
      · exact Or.inr (Or.inr rfl)
      · exact Or.inl (mem_cons_of_dropWhile_eq hr (mem_of_mem_takeWhile h2))
      · rcases ih x h2 with h6 | h6
        · exact Or.inl (mem_cons_of_dropWhile_eq hr (mem_of_mem_dropWhile h6))
        · exact Or.inr h6
    · rename_i hneg
      exact (hneg r hr).elim
  | case4 c t hw hnone ih =>
    intro x hx
    rw [insOptChainAux, if_pos hw] at hx
    dsimp only at hx
    split at hx
    · rename_i r2 heq
      exact (hnone r2 heq).elim
    · rename_i hneg
      rcases List.mem_append.mp hx with h2 | h2
      · exact Or.inl (mem_of_mem_takeWhile h2)
      · rcases ih x h2 with h4 | h4
        · exact Or.inl (mem_of_mem_dropWhile h4)
        · exact Or.inr h4
  | case5 c t hw ih =>
    intro x hx
    rw [insOptChainAux, if_neg hw] at hx
    rcases List.mem_cons.mp hx with rfl | h2
    · exact Or.inl (List.mem_cons_self _ _)
    · rcases ih x h2 with h3 | h3
      · exact Or.inl (List.mem_cons_of_mem _ h3)
      · exact Or.inr h3

theorem tabsToSpaces_mem (l : List Char) :
    ∀ c ∈ tabsToSpaces l, c ∈ l ∨ c = ' ' := by
  induction l with
  | nil => intro c hc; simp [tabsToSpaces] at hc
  | cons a t ih =>
    intro c hc
    unfold tabsToSpaces at hc
    simp only [List.foldr_cons] at hc
    by_cases ha : a = '\t'
    · rw [if_pos ha] at hc
      rcases List.mem_append.mp hc with h1 | h1
      · exact Or.inr (by simpa using h1)
      · rcases ih c h1 with h2 | h2
        · exact Or.inl (List.mem_cons_of_mem _ h2)
        · exact Or.inr h2
    · rw [if_neg ha] at hc
      rcases List.mem_cons.mp hc with rfl | h1
      · exact Or.inl (List.mem_cons_self _ _)
      · rcases ih c h1 with h2 | h2
        · exact Or.inl (List.mem_cons_of_mem _ h2)
        · exact Or.inr h2

theorem no_nl_append {a b : List Char} (ha : '\n' ∉ a) (hb : '\n' ∉ b) : '\n' ∉ a ++ b := by
  intro hc
  rcases List.mem_append.mp hc with h | h
  · exact ha h
  · exact hb h

theorem no_nl_evalFix {line : List Char} (h : '\n' ∉ line) : '\n' ∉ replaceEvalCall line := by
  unfold replaceEvalCall
  cases hrec : replaceEvalAux false line with
  | none => simpa using h
  | some res =>
    intro hc
    rcases replaceEvalAux_mem line false res hrec '\n' hc with h2 | h2
    · exact h h2
    · exact absurd h2 (by decide)

theorem no_nl_looseEqFix {line : List Char} (h : '\n' ∉ line) :
    '\n' ∉ replaceLooseEqAux line := by
  intro hc
  rcases replaceLooseEqAux_mem line '\n' hc with h2 | h2
  · exact h h2
  · exact absurd h2 (by decide)

theorem no_nl_secretFix {line : List Char} (h : '\n' ∉ line) : '\n' ∉ replaceSecret line := by
  unfold replaceSecret
  cases hrec : replaceSecretAux line with
  | none => simpa using h
  | some res =>
    intro hc
    rcases replaceSecretAux_mem line res hrec '\n' hc with h2 | h2
    · exact h h2
    · exact absurd h2 (by decide)

theorem no_nl_optChainFix {line : List Char} (h : '\n' ∉ line) :
    '\n' ∉ insOptChainAux line := by
  intro hc
  rcases insOptChainAux_mem line '\n' hc with h2 | h2 | h2
  · exact h h2
  · exact absurd h2 (by decide)
  · exact absurd h2 (by decide)

theorem no_nl_tabsFix {line : List Char} (h : '\n' ∉ line) : '\n' ∉ tabsToSpaces line := by
  intro hc
  rcases tabsToSpaces_mem line '\n' hc with h2 | h2
  · exact h h2
  · exact absurd h2 (by decide)

theorem no_nl_jsTrimRight {line : List Char} (h : '\n' ∉ line) : '\n' ∉ jsTrimRight line :=
  fun hc => h (mem_of_mem_jsTrimRight hc)

theorem no_nl_jsTrim {line : List Char} (h : '\n' ∉ line) : '\n' ∉ jsTrim line :=
  fun hc => h (mem_of_mem_jsTrim hc)

/-- Every rule of `_ruleBasedFix` rewrites the offending line into a
line that still contains no newline, so the fix replaces exactly one
line of the file. -/
theorem applyLineRules_no_nl (bt f : String) {line : List Char} (h : '\n' ∉ line) :
    '\n' ∉ (applyLineRules bt f line).2.1 := by
  unfold applyLineRules
  by_cases h1 : bt = "SYNTAX"
  · rw [if_pos h1]
    dsimp only
    split
    · exact no_nl_append (no_nl_jsTrimRight h) (by decide)
    · exact h
  · rw [if_neg h1]
    by_cases h2 : bt = "LINTING"
    · rw [if_pos h2]
      split
      · exact no_nl_append (no_nl_append (by decide) (no_nl_jsTrim h)) (by decide)
      · exact h
    · rw [if_neg h2]
      by_cases h3 : bt = "LOGIC"
      · rw [if_pos h3]
        dsimp only
        split
        · exact no_nl_secretFix h
        · split
          · exact no_nl_looseEqFix h
          · split
            · exact no_nl_evalFix h
            · exact h
      · rw [if_neg h3]
        by_cases h4 : bt = "TYPE_ERROR"
        · rw [if_pos h4]
          split
          · exact no_nl_optChainFix h
          · exact h
        · rw [if_neg h4]
          by_cases h5 : bt = "IMPORT"
          · rw [if_pos h5]
            split
            · exact no_nl_append (no_nl_append (by decide) h) (by decide)
            · exact h
          · rw [if_neg h5]
            by_cases h6 : bt = "INDENTATION"
            · rw [if_pos h6]
              split
              · exact no_nl_tabsFix h
              · exact h
            · rw [if_neg h6]
              exact h

/-- C10: `_ruleBasedFix` modifies at most the single line at position
`issue.line`: when the line is in range the returned `fixedCode` splits
into the original file's lines with only index `issue.line - 1`
replaced; when it is out of range the agent reports `success = false`
and returns the original content unchanged. -/
theorem c10_ruleBasedFix_frame (issue : Issue) (orig : String) :
    ((issue.line < 1 ∨ ((splitNlChars orig.data).length : Int) < issue.line) →
      ruleBasedFix issue orig =
        { success := false, fixedCode := orig, commitMessage := ""
          explanation := "Line out of range" }) ∧
    (1 ≤ issue.line → issue.line ≤ ((splitNlChars orig.data).length : Int) →
      ∃ nl, splitNlChars ((ruleBasedFix issue orig).fixedCode).data =
        (splitNlChars orig.data).set (issue.line - 1).toNat nl) := by
  constructor
  · intro hout
    unfold ruleBasedFix
    rw [if_pos (by omega)]
  · intro h1 h2
    unfold ruleBasedFix
    rw [if_neg (by omega)]
    dsimp only
    refine ⟨(applyLineRules issue.bug_type issue.file
      ((splitNlChars orig.data).getD (issue.line - 1).toNat [])).2.1, ?_⟩
    show splitNlChars (joinNlChars _) = _
    apply splitNl_joinNl
    · intro hnil
      have hlen := congrArg List.length hnil
      rw [List.length_set] at hlen
      exact splitNlChars_ne_nil orig.data (List.length_eq_zero.mp hlen)
    · intro p hp
      rcases List.mem_or_eq_of_mem_set hp with hmem | rfl
      · exact splitNlChars_pieces _ p hmem
      · apply applyLineRules_no_nl
        have hidx : (issue.line - 1).toNat < (splitNlChars orig.data).length := by omega
        rw [List.getD_eq_getElem _ _ hidx]
        exact splitNlChars_pieces _ _ (List.getElem_mem hidx)

/-- Witness for C10 at an in-range LINTING fix and an out-of-range line. -/
theorem c10_ruleBasedFix_frame_witness :
    (1 ≤ (2 : Int) ∧
      (2 : Int) ≤ ((splitNlChars ("a\nconsole.log(1)\nc" : String).data).length : Int)) ∧
    (∃ nl, splitNlChars ((ruleBasedFix ⟨"a.js", 2, "LINTING", "", ""⟩
        "a\nconsole.log(1)\nc").fixedCode).data =
      (splitNlChars ("a\nconsole.log(1)\nc" : String).data).set ((2 : Int) - 1).toNat nl) ∧
    ruleBasedFix ⟨"a.js", 9, "LINTING", "", ""⟩ "one\ntwo" =
      { success := false, fixedCode := "one\ntwo", commitMessage := ""
        explanation := "Line out of range" } :=
  ⟨⟨by decide, by decide⟩,
   (c10_ruleBasedFix_frame ⟨"a.js", 2, "LINTING", "", ""⟩ "a\nconsole.log(1)\nc").2
     (by decide) (by decide),
   (c10_ruleBasedFix_frame ⟨"a.js", 9, "LINTING", "", ""⟩ "one\ntwo").1 (by decide)⟩

/-! ## C3 — CIAgent.waitForChecks polling -/

theorem waitForChecksAux_step_terminal (polls : Nat → PollOutcome) (k fuel : Nat)
    (h : pollTerminal (polls k) = true) :
    waitForChecksAux polls k (fuel + 1) = terminalResult (polls k) := by
  rw [waitForChecksAux]
  cases hp : polls k with
  | err => rw [hp] at h; simp [pollTerminal] at h
  | ok checks statuses =>
    rw [hp] at h
    dsimp only
    unfold pollTerminal codeTerminal at h
    simp only [Bool.and_eq_true, Bool.not_eq_true'] at h
    obtain ⟨⟨hne, hc⟩, hs⟩ := h
    rw [if_neg (by simp [hne]), if_neg (by rw [hc, hs]; decide)]
    rfl

theorem waitForChecksAux_step_skip (polls : Nat → PollOutcome) (k fuel : Nat)
    (h : pollTerminal (polls k) = false) :
    waitForChecksAux polls k (fuel + 1) = waitForChecksAux polls (k + 1) fuel := by
  rw [waitForChecksAux]
  cases hp : polls k with
  | err => rfl
  | ok checks statuses =>
    rw [hp] at h
    dsimp only
    unfold pollTerminal codeTerminal at h
    by_cases he : (checks.isEmpty && statuses.isEmpty) = true
    · rw [if_pos he]
    · rw [if_neg he]
      rw [if_pos]
      rw [Bool.and_eq_false_iff] at h
      rcases h with h2 | h2
      · rw [Bool.and_eq_false_iff] at h2
        rcases h2 with h3 | h3
        · exact absurd (by simpa using h3) he
        · rw [h3]; simp
      · rw [h2]; simp

theorem waitForChecksAux_timeout (polls : Nat → PollOutcome) (fuel : Nat) :
    ∀ k, (∀ i, i < fuel → pollTerminal (polls (k + i)) = false) →
      waitForChecksAux polls k fuel = timeoutResult := by
  induction fuel with
  | zero => intro k _; rfl
  | succ f ih =>
    intro k h
    rw [waitForChecksAux_step_skip polls k f (by simpa using h 0 (by omega))]
    apply ih
    intro i hi
    have := h (i + 1) (by omega)
    rwa [show k + (i + 1) = k + 1 + i by omega] at this

theorem waitForChecksAux_hits (polls : Nat → PollOutcome) (fuel : Nat) :
    ∀ k j, j < fuel → (∀ i, i < j → pollTerminal (polls (k + i)) = false) →
      pollTerminal (polls (k + j)) = true →
      waitForChecksAux polls k fuel = terminalResult (polls (k + j)) := by
  induction fuel with
  | zero => intro k j hj; omega
  | succ f ih =>
    intro k j hj hbefore hterm
    cases j with
    | zero =>
      simpa using waitForChecksAux_step_terminal polls k f (by simpa using hterm)
    | succ j2 =>
      rw [waitForChecksAux_step_skip polls k f (by simpa using hbefore 0 (by omega))]
      have h2 := ih (k + 1) j2 (by omega) (fun i hi => by
        have := hbefore (i + 1) (by omega)
        rwa [show k + (i + 1) = k + 1 + i by omega] at this)
        (by rwa [show k + 1 + j2 = k + (j2 + 1) by omega])
      rwa [show k + 1 + j2 = k + (j2 + 1) by omega] at h2

/-- C3 (amended): `waitForChecks` keeps polling while BOTH lists are
empty, or some check run is not `completed`, or some status is
`pending`; at the first poll where at least ONE of the two lists is
non-empty and nothing is pending (the source requires only one list
non-empty, not both) it returns, with `PASSED` exactly when no check
concluded failure/timed_out/cancelled and no status is failure/error,
and `FAILED` otherwise; if no poll in the window is terminal it
returns `FAILED` with the single `timeout` failure-log entry. -/
theorem c3_waitForChecks_amended (polls : Nat → PollOutcome) (timeoutMs : Nat) :
    ((∀ k, k < pollCount timeoutMs → pollTerminal (polls k) = false) →
      waitForChecks polls timeoutMs = timeoutResult) ∧
    (∀ j, j < pollCount timeoutMs → (∀ k, k < j → pollTerminal (polls k) = false) →
      pollTerminal (polls j) = true →
      waitForChecks polls timeoutMs = terminalResult (polls j)) ∧
    (∀ checks statuses,
      ((evalCompletedPoll checks statuses).status = "PASSED" ∨
        (evalCompletedPoll checks statuses).status = "FAILED") ∧
      ((evalCompletedPoll checks statuses).status = "PASSED" ↔
        (checks.filter (fun c => c.conclusion = "failure" || c.conclusion = "timed_out" ||
          c.conclusion = "cancelled")).isEmpty = true ∧
        (statuses.filter (fun s => s.state = "failure" || s.state = "error")).isEmpty = true)) := by
  refine ⟨?_, ?_, ?_⟩
  · intro h
    exact waitForChecksAux_timeout polls (pollCount timeoutMs) 0
      (fun i hi => by rw [Nat.zero_add]; exact h i hi)
  · intro j hj hb ht
    have h2 := waitForChecksAux_hits polls (pollCount timeoutMs) 0 j hj
      (fun i hi => by rw [Nat.zero_add]; exact hb i hi) (by rw [Nat.zero_add]; exact ht)
    rw [Nat.zero_add] at h2
    exact h2
  · intro checks statuses
    unfold evalCompletedPoll
    by_cases hcond : (!(checks.filter (fun c => c.conclusion = "failure" ||
        c.conclusion = "timed_out" || c.conclusion = "cancelled")).isEmpty ||
        !(statuses.filter (fun s => s.state = "failure" || s.state = "error")).isEmpty) = true
    · rw [if_pos hcond]
      constructor
      · exact Or.inr rfl
      · simp only [Bool.or_eq_true, Bool.not_eq_true'] at hcond
        constructor
        · intro hp
          have h9 : ("FAILED" : String) = "PASSED" := hp
          exact absurd h9 (by decide)
        · intro ⟨hc, hs⟩
          rcases hcond with h2 | h2
          · rw [hc] at h2; cases h2
          · rw [hs] at h2; cases h2
    · rw [if_neg hcond]
      constructor
      · exact Or.inl rfl
      · simp only [Bool.or_eq_true, Bool.not_eq_true', not_or] at hcond
        obtain ⟨hc, hs⟩ := hcond
        constructor
        · intro _
          constructor
          · cases hcb : (checks.filter (fun c => c.conclusion = "failure" ||
              c.conclusion = "timed_out" || c.conclusion = "cancelled")).isEmpty
            · exact absurd hcb hc
            · rfl
          · cases hsb : (statuses.filter (fun s => s.state = "failure" ||
              s.state = "error")).isEmpty
            · exact absurd hsb hs
            · rfl
        · intro _; rfl

/-- Witness for C3 at a terminal first poll. -/
theorem c3_waitForChecks_amended_witness :
    (0 < pollCount 300000) ∧
    pollTerminal (PollOutcome.ok [⟨"build", "completed", "success", [], "", ""⟩]
      [⟨"ci/test", "success", "", ""⟩]) = true ∧
    waitForChecks (fun _ => PollOutcome.ok [⟨"build", "completed", "success", [], "", ""⟩]
      [⟨"ci/test", "success", "", ""⟩]) 300000 =
      terminalResult (PollOutcome.ok [⟨"build", "completed", "success", [], "", ""⟩]
        [⟨"ci/test", "success", "", ""⟩]) :=
  ⟨by decide, by decide,
    (c3_waitForChecks_amended
        (fun _ => PollOutcome.ok [⟨"build", "completed", "success", [], "", ""⟩]
          [⟨"ci/test", "success", "", ""⟩]) 300000).2.1 0 (by decide)
      (by intro k hk; exact absurd hk (Nat.not_lt_zero k)) (by decide)⟩

/-- C3 (counterexample): a commit whose every poll shows one completed
successful check run and an empty combined-status list is never
terminal under the claim's condition (it requires BOTH lists
non-empty), so the claim predicts the timeout result; the code
returns `PASSED` at the very first poll. -/
theorem c3_both_lists_counterexample :
    waitForChecks (fun _ => PollOutcome.ok
        [⟨"build", "completed", "success", [], "", ""⟩] []) 300000 =
      ⟨"PASSED", [("build", "success")], []⟩ ∧
    specTerminal (PollOutcome.ok [⟨"build", "completed", "success", [], "", ""⟩] []) = false ∧
    waitForChecks (fun _ => PollOutcome.ok
        [⟨"build", "completed", "success", [], "", ""⟩] []) 300000 ≠ timeoutResult := by
  decide

/-! ## C9 — idempotent installation handling -/

theorem seedRules_projects (db : Db) (pid : Nat) : (seedRules db pid).projects = db.projects := rfl

theorem findOrCreateUser_projects (db : Db) (g n a : String) :
    (findOrCreateUser db g n a).2.projects = db.projects := by
  unfold findOrCreateUser
  cases db.users.find? (fun u => u.githubId = g) <;> rfl

theorem stepRepoCreated_establishes (instId login : String) (uid : Nat) (db : Db)
    (repo : InstRepo) :
    ((stepRepoCreated instId login uid db repo).projects.find?
      (fun q => q.githubRepoId = repo.id)).isSome = true := by
  unfold stepRepoCreated
  cases hf : db.projects.find? (fun q => q.githubRepoId = repo.id) with
  | none =>
    dsimp only
    rw [List.find?_isSome]
    exact ⟨_, List.mem_append_right _ (List.mem_cons_self _ _), by simp⟩
  | some existing =>
    dsimp only
    rw [List.find?_isSome]
    refine ⟨_, List.mem_map_of_mem _ (List.mem_of_find?_eq_some hf), ?_⟩
    have hp := List.find?_some hf
    by_cases hid : existing.id = existing.id
    · simpa [hid] using hp
    · exact absurd rfl hid

theorem stepRepoCreated_preserves (instId login : String) (uid : Nat) (db : Db)
    (repo : InstRepo) (rid : Nat)
    (h : (db.projects.find? (fun q => q.githubRepoId = rid)).isSome = true) :
    ((stepRepoCreated instId login uid db repo).projects.find?
      (fun q => q.githubRepoId = rid)).isSome = true := by
  rw [List.find?_isSome] at h
  obtain ⟨x, hmem, hx⟩ := h
  unfold stepRepoCreated
  cases hf : db.projects.find? (fun q => q.githubRepoId = repo.id) with
  | none =>
    dsimp only
    rw [List.find?_isSome]
    exact ⟨x, List.mem_append_left _ hmem, hx⟩
  | some existing =>
    dsimp only
    rw [List.find?_isSome]
    refine ⟨_, List.mem_map_of_mem _ hmem, ?_⟩
    by_cases hid : x.id = existing.id
    · simpa [hid] using hx
    · simpa [hid] using hx

theorem stepRepoCreated_len (instId login : String) (uid : Nat) (db : Db) (repo : InstRepo)
    (h : (db.projects.find? (fun q => q.githubRepoId = repo.id)).isSome = true) :
    (stepRepoCreated instId login uid db repo).projects.length = db.projects.length := by
  unfold stepRepoCreated
  cases hf : db.projects.find? (fun q => q.githubRepoId = repo.id) with
  | none => rw [hf] at h; cases h
  | some existing => simp

theorem foldl_step_preserves (instId login : String) (uid : Nat) (repos : List InstRepo) :
    ∀ (db : Db) (rid : Nat),
      (db.projects.find? (fun q => q.githubRepoId = rid)).isSome = true →
      (((repos.foldl (stepRepoCreated instId login uid) db).projects.find?
        (fun q => q.githubRepoId = rid)).isSome) = true := by
  induction repos with
  | nil => intro db rid h; exact h
  | cons a t ih =>
    intro db rid h
    exact ih _ rid (stepRepoCreated_preserves instId login uid db a rid h)

theorem foldl_step_establishes (instId login : String) (uid : Nat) (repos : List InstRepo) :
    ∀ (db : Db) (r : InstRepo), r ∈ repos →
      (((repos.foldl (stepRepoCreated instId login uid) db).projects.find?
        (fun q => q.githubRepoId = r.id)).isSome) = true := by
  induction repos with
  | nil => intro db r hr; cases hr
  | cons a t ih =>
    intro db r hr
    rcases List.mem_cons.mp hr with rfl | hr2
    · exact foldl_step_preserves instId login uid t _ r.id
        (stepRepoCreated_establishes instId login uid db r)
    · exact ih _ r hr2

theorem foldl_step_len (instId login : String) (uid : Nat) (repos : List InstRepo) :
    ∀ (db : Db),
      (∀ r ∈ repos, (db.projects.find? (fun q => q.githubRepoId = r.id)).isSome = true) →
      (repos.foldl (stepRepoCreated instId login uid) db).projects.length =
        db.projects.length := by
  induction repos with
  | nil => intro db _; rfl
  | cons a t ih =>
    intro db h
    rw [List.foldl_cons]
    rw [ih _ (fun r hr => stepRepoCreated_preserves instId login uid db a r.id
      (h r (List.mem_cons_of_mem a hr)))]
    exact stepRepoCreated_len instId login uid db a (h a (List.mem_cons_self a t))

/-- C9: handling the same `installation.created` payload twice leaves
the project count unchanged — the second handling finds every payload
repository by its unique `githubRepoId` and only re-writes its
`installationId`, never creating a project. -/
theorem c9_installation_idempotent (p : InstPayload) (db : Db)
    (hact : p.action = "created") :
    (handleInstallation p (handleInstallation p db)).projects.length =
      (handleInstallation p db).projects.length := by
  unfold handleInstallation
  rw [if_pos hact, if_pos hact]
  dsimp only
  rw [foldl_step_len _ _ _ _ _ (fun r hr => by
    rw [findOrCreateUser_projects]
    exact foldl_step_establishes _ _ _ p.repositories _ r hr)]
  rw [findOrCreateUser_projects]

/-- Witness for C9 at a concrete payload (one known repo, one new). -/
theorem c9_installation_idempotent_witness :
    (InstPayload.mk "created" 77 "acme" 5 "bob" ""
      [⟨101, "r1", "acme/r1"⟩, ⟨102, "r2", "acme/r2"⟩] []).action = "created" ∧
    (handleInstallation
      (InstPayload.mk "created" 77 "acme" 5 "bob" ""
        [⟨101, "r1", "acme/r1"⟩, ⟨102, "r2", "acme/r2"⟩] [])
      (handleInstallation
        (InstPayload.mk "created" 77 "acme" 5 "bob" ""
          [⟨101, "r1", "acme/r1"⟩, ⟨102, "r2", "acme/r2"⟩] [])
        ⟨[], [⟨1, 9, "r1", "acme", "u", 101, "old"⟩], [], 10, 2⟩)).projects.length =
    (handleInstallation
      (InstPayload.mk "created" 77 "acme" 5 "bob" ""
        [⟨101, "r1", "acme/r1"⟩, ⟨102, "r2", "acme/r2"⟩] [])
      ⟨[], [⟨1, 9, "r1", "acme", "u", 101, "old"⟩], [], 10, 2⟩).projects.length :=
  ⟨rfl, c9_installation_idempotent _ _ rfl⟩

/-! ## Orchestrator lemmas shared by C1, C4, C6 -/

theorem processFile_fields (env : OrchEnv) (acc : OrchState × Nat) (grp : String × List Issue) :
    (processFile env acc grp).1.retryCount = acc.1.retryCount ∧
    (processFile env acc grp).1.monitorVisits = acc.1.monitorVisits ∧
    (processFile env acc grp).1.applyFixesCalls = acc.1.applyFixesCalls ∧
    (processFile env acc grp).1.ciTimeline = acc.1.ciTimeline ∧
    (processFile env acc grp).1.clock = acc.1.clock := by
  unfold processFile
  dsimp only
  split
  · exact ⟨rfl, rfl, rfl, rfl, rfl⟩
  · dsimp only
    split
    · split
      · exact ⟨rfl, rfl, rfl, rfl, rfl⟩
      · exact ⟨rfl, rfl, rfl, rfl, rfl⟩
    · exact ⟨rfl, rfl, rfl, rfl, rfl⟩

theorem foldl_processFile_fields (env : OrchEnv) (groups : List (String × List Issue)) :
    ∀ acc : OrchState × Nat,
      (groups.foldl (processFile env) acc).1.retryCount = acc.1.retryCount ∧
      (groups.foldl (processFile env) acc).1.monitorVisits = acc.1.monitorVisits ∧
      (groups.foldl (processFile env) acc).1.applyFixesCalls = acc.1.applyFixesCalls ∧
      (groups.foldl (processFile env) acc).1.ciTimeline = acc.1.ciTimeline ∧
      (groups.foldl (processFile env) acc).1.clock = acc.1.clock := by
  induction groups with
  | nil => intro acc; exact ⟨rfl, rfl, rfl, rfl, rfl⟩
  | cons g t ih =>
    intro acc
    rw [List.foldl_cons]
    obtain ⟨i1, i2, i3, i4, i5⟩ := ih (processFile env acc g)
    obtain ⟨p1, p2, p3, p4, p5⟩ := processFile_fields env acc g
    exact ⟨i1.trans p1, i2.trans p2, i3.trans p3, i4.trans p4, i5.trans p5⟩

theorem applyFixes_fields (env : OrchEnv) (st : OrchState) (issues : List Issue) :
    (applyFixes env st issues).1.retryCount = st.retryCount ∧
    (applyFixes env st issues).1.monitorVisits = st.monitorVisits ∧
    (applyFixes env st issues).1.applyFixesCalls = st.applyFixesCalls + 1 ∧
    (applyFixes env st issues).1.ciTimeline = st.ciTimeline ∧
    (applyFixes env st issues).1.clock = st.clock := by
  unfold applyFixes
  exact foldl_processFile_fields env (groupByFile issues) _

theorem countApplied_append (l1 l2 : List Fix) :
    countApplied (l1 ++ l2) = countApplied l1 + countApplied l2 := by
  unfold countApplied
  rw [List.filter_append, List.length_append]

theorem countApplied_cons (f : Fix) (t : List Fix) :
    countApplied (f :: t) = (if f.status = "applied" then 1 else 0) + countApplied t := by
  unfold countApplied
  rw [List.filter_cons]
  by_cases h : f.status = "applied"
  · simp [h, Nat.add_comm]
  · simp [h]

theorem countApplied_demote (fixes : List Fix) (fp : String) :
    countApplied (demoteApplied fixes fp) ≤ countApplied fixes := by
  unfold demoteApplied
  induction fixes with
  | nil => simp [countApplied]
  | cons f t ih =>
    rw [List.map_cons, countApplied_cons, countApplied_cons]
    by_cases hcond : f.file = fp ∧ f.status = "applied"
    · rw [if_pos hcond]
      have h1 : ¬(({ f with status := "commit_failed" } : Fix).status = "applied") := by simp
      rw [if_neg h1]
      by_cases h3 : f.status = "applied"
      · rw [if_pos h3]; omega
      · rw [if_neg h3]; omega
    · rw [if_neg hcond]
      by_cases h3 : f.status = "applied"
      · rw [if_pos h3]; omega
      · rw [if_neg h3]; omega

theorem processIssues_count (env : OrchEnv) (fp : String) :
    ∀ (issues : List Issue) (current : String) (msgs : List String) (fxs : List Fix)
      (k a : Nat),
      countApplied (processIssues env fp issues current msgs fxs k a).2.2.1 +
        (processIssues env fp issues current msgs fxs k a).2.2.2.2 + a =
      countApplied fxs + 2 * (processIssues env fp issues current msgs fxs k a).2.2.2.2 ∧
      a ≤ (processIssues env fp issues current msgs fxs k a).2.2.2.2 := by
  intro issues
  induction issues with
  | nil =>
    intro current msgs fxs k a
    constructor
    · show countApplied fxs + a + a = countApplied fxs + 2 * a
      omega
    · exact Nat.le_refl a
  | cons issue rest ih =>
    intro current msgs fxs k a
    rw [processIssues]
    cases env.generateFix k issue current with
    | ok fix =>
      dsimp only
      split
      · obtain ⟨h1, h2⟩ := ih fix.fixedCode (msgs ++ [fix.commitMessage])
          (fxs ++ [⟨fp, issue.line, issue.bug_type, fix.commitMessage, "applied",
            fix.explanation⟩]) (k + 1) (a + 1)
        rw [countApplied_append] at h1
        have h3 : countApplied [(⟨fp, issue.line, issue.bug_type, fix.commitMessage,
            "applied", fix.explanation⟩ : Fix)] = 1 := by
          unfold countApplied
          simp
        rw [h3] at h1
        exact ⟨by omega, by omega⟩
      · obtain ⟨h1, h2⟩ := ih current msgs
          (fxs ++ [⟨fp, issue.line, issue.bug_type, "", "unfixable",
            orDefault fix.explanation "No fix available"⟩]) (k + 1) a
        rw [countApplied_append] at h1
        have h3 : countApplied [(⟨fp, issue.line, issue.bug_type, "", "unfixable",
            orDefault fix.explanation "No fix available"⟩ : Fix)] = 0 := by
          unfold countApplied
          simp
        rw [h3] at h1
        exact ⟨by omega, h2⟩
    | thrown m =>
      dsimp only
      obtain ⟨h1, h2⟩ := ih current msgs
        (fxs ++ [⟨fp, issue.line, issue.bug_type, "", "error", m⟩]) (k + 1) a
      rw [countApplied_append] at h1
      have h3 : countApplied [(⟨fp, issue.line, issue.bug_type, "", "error", m⟩ : Fix)] = 0 := by
        unfold countApplied
        simp
      rw [h3] at h1
      exact ⟨by omega, h2⟩

theorem countApplied_skips (fp : String) (issues : List Issue) :
    countApplied (issues.map (fun i =>
      (⟨fp, i.line, i.bug_type, "", "skipped", "File not found on branch"⟩ : Fix))) = 0 := by
  induction issues with
  | nil => rfl
  | cons i t ih => rw [List.map_cons, countApplied_cons, if_neg (by simp), ih]

theorem processFile_count (env : OrchEnv) (acc : OrchState × Nat) (grp : String × List Issue) :
    countApplied (processFile env acc grp).1.fixes + acc.2 ≤
      countApplied acc.1.fixes + (processFile env acc grp).2 ∧
    acc.2 ≤ (processFile env acc grp).2 := by
  unfold processFile
  dsimp only
  split
  · constructor
    · show countApplied (acc.1.fixes ++ _) + acc.2 ≤ _
      rw [countApplied_append, countApplied_skips]
      omega
    · exact Nat.le_refl _
  · rename_i content hcontent
    obtain ⟨hc1, _⟩ := processIssues_count env grp.1 grp.2 content [] [] acc.1.fixCalls 0
    have hnew : countApplied (processIssues env grp.1 grp.2 content [] []
        acc.1.fixCalls 0).2.2.1 =
        (processIssues env grp.1 grp.2 content [] [] acc.1.fixCalls 0).2.2.2.2 := by
      have hz : countApplied ([] : List Fix) = 0 := rfl
      omega
    dsimp only
    split
    · split
      · constructor
        · show countApplied (acc.1.fixes ++ _) + acc.2 ≤ _
          rw [countApplied_append, hnew]
          omega
        · show acc.2 ≤ acc.2 + _
          omega
      · constructor
        · show countApplied (demoteApplied (acc.1.fixes ++ _) grp.1) + acc.2 ≤ _
          have hd := countApplied_demote (acc.1.fixes ++ (processIssues env grp.1 grp.2
            content [] [] acc.1.fixCalls 0).2.2.1) grp.1
          rw [countApplied_append, hnew] at hd
          omega
        · show acc.2 ≤ acc.2 + _
          omega
    · constructor
      · show countApplied (acc.1.fixes ++ _) + acc.2 ≤ _
        rw [countApplied_append, hnew]
        omega
      · show acc.2 ≤ acc.2 + _
        omega

theorem foldl_processFile_count (env : OrchEnv) (groups : List (String × List Issue)) :
    ∀ acc : OrchState × Nat,
      countApplied (groups.foldl (processFile env) acc).1.fixes + acc.2 ≤
        countApplied acc.1.fixes + (groups.foldl (processFile env) acc).2 ∧
      acc.2 ≤ (groups.foldl (processFile env) acc).2 := by
  induction groups with
  | nil => intro acc; exact ⟨Nat.le_refl _, Nat.le_refl _⟩
  | cons g t ih =>
    intro acc
    rw [List.foldl_cons]
    obtain ⟨i1, i2⟩ := ih (processFile env acc g)
    obtain ⟨p1, p2⟩ := processFile_count env acc g
    exact ⟨by omega, by omega⟩

theorem applyFixes_count (env : OrchEnv) (st : OrchState) (issues : List Issue) :
    countApplied (applyFixes env st issues).1.fixes ≤
      countApplied st.fixes + (applyFixes env st issues).2 := by
  unfold applyFixes
  have h := (foldl_processFile_count env (groupByFile issues)
    ({ st with applyFixesCalls := st.applyFixesCalls + 1 }, 0)).1
  simpa using h

theorem ciLoop_bounds (env : OrchEnv) (maxR : Nat) :
    ∀ (fuel : Nat) (st : OrchState),
      (ciLoop env maxR fuel st).2.retryCount ≤ st.retryCount + fuel ∧
      (ciLoop env maxR fuel st).2.monitorVisits ≤ st.monitorVisits + fuel ∧
      (ciLoop env maxR fuel st).2.applyFixesCalls ≤ st.applyFixesCalls + fuel := by
  have arwR : ∀ (s : OrchState) (i : List Issue),
      (applyFixes env s i).1.retryCount = s.retryCount :=
    fun s i => (applyFixes_fields env s i).1
  have arwM : ∀ (s : OrchState) (i : List Issue),
      (applyFixes env s i).1.monitorVisits = s.monitorVisits :=
    fun s i => (applyFixes_fields env s i).2.1
  have arwA : ∀ (s : OrchState) (i : List Issue),
      (applyFixes env s i).1.applyFixesCalls = s.applyFixesCalls + 1 :=
    fun s i => (applyFixes_fields env s i).2.2.1
  intro fuel
  induction fuel with
  | zero => intro st; exact ⟨Nat.le_refl _, Nat.le_refl _, Nat.le_refl _⟩
  | succ f ih =>
    intro st
    rw [ciLoop]
    dsimp only
    split
    · exact ⟨by dsimp only; omega, by dsimp only; omega, by dsimp only; omega⟩
    · split
      · exact ⟨by dsimp only; omega, by dsimp only; omega, by dsimp only; omega⟩
      · split
        · refine ⟨Nat.le_trans (ih _).1 ?_, Nat.le_trans (ih _).2.1 ?_,
            Nat.le_trans (ih _).2.2 ?_⟩
          · dsimp only
            rw [arwR]
            dsimp only
            omega
          · dsimp only
            rw [arwM]
            dsimp only
            omega
          · dsimp only
            rw [arwA]
            dsimp only
            omega
        · refine ⟨Nat.le_trans (ih _).1 ?_, Nat.le_trans (ih _).2.1 ?_,
            Nat.le_trans (ih _).2.2 ?_⟩
          · dsimp only
            omega
          · dsimp only
            omega
          · dsimp only
            omega

theorem tlInv_empty (st : OrchState) (h1 : st.ciTimeline = []) (h2 : st.retryCount = 0) :
    tlInv st := by
  unfold tlInv
  rw [h1, h2]
  exact ⟨rfl, rfl, List.Pairwise.nil, by simp⟩

theorem tlInv_push (st : OrchState) (status : String) (h : tlInv st) :
    tlInv { st with
      retryCount := st.retryCount + 1
      monitorVisits := st.monitorVisits + 1
      ciTimeline := st.ciTimeline ++ [⟨st.retryCount + 1, st.clock, status⟩]
      clock := st.clock + 1 } := by
  obtain ⟨h1, h2, h3, h4⟩ := h
  refine ⟨?_, ?_, ?_, ?_⟩
  · dsimp only
    rw [List.map_append, List.length_append, h1, h2]
    dsimp only [List.map_cons, List.map_nil, List.length_cons, List.length_nil]
    rw [List.range'_1_concat]
    simp [Nat.add_comm]
  · dsimp only
    rw [List.length_append, h2]
    rfl
  · dsimp only
    rw [List.pairwise_append]
    refine ⟨h3, List.pairwise_singleton _ _, ?_⟩
    intro a ha b hb
    have hb2 : b = ⟨st.retryCount + 1, st.clock, status⟩ := by simpa using hb
    rw [hb2]
    exact Nat.le_of_lt (h4 a ha)
  · dsimp only
    intro e he
    rcases List.mem_append.mp he with h5 | h5
    · exact Nat.lt_trans (h4 e h5) (Nat.lt_succ_self _)
    · have h6 : e = ⟨st.retryCount + 1, st.clock, status⟩ := by simpa using h5
      rw [h6]
      exact Nat.lt_succ_self _

theorem tlInv_transport (s s' : OrchState) (h : tlInv s) (ht : s'.ciTimeline = s.ciTimeline)
    (hr : s'.retryCount = s.retryCount) (hc : s.clock ≤ s'.clock) : tlInv s' := by
  obtain ⟨h1, h2, h3, h4⟩ := h
  exact ⟨by rw [ht]; exact h1, by rw [ht, hr]; exact h2, by rw [ht]; exact h3,
    fun e he => Nat.lt_of_lt_of_le (h4 e (by rw [← ht]; exact he)) hc⟩

theorem ciLoop_tlInv (env : OrchEnv) (maxR : Nat) :
    ∀ (fuel : Nat) (st : OrchState), tlInv st → tlInv (ciLoop env maxR fuel st).2 := by
  have arwT : ∀ (s : OrchState) (i : List Issue),
      (applyFixes env s i).1.ciTimeline = s.ciTimeline :=
    fun s i => (applyFixes_fields env s i).2.2.2.1
  have arwR : ∀ (s : OrchState) (i : List Issue),
      (applyFixes env s i).1.retryCount = s.retryCount :=
    fun s i => (applyFixes_fields env s i).1
  have arwC : ∀ (s : OrchState) (i : List Issue),
      (applyFixes env s i).1.clock = s.clock :=
    fun s i => (applyFixes_fields env s i).2.2.2.2
  intro fuel
  induction fuel with
  | zero => intro st h; exact h
  | succ f ih =>
    intro st h
    rw [ciLoop]
    dsimp only
    have hp := tlInv_push st (env.ciResult (st.retryCount + 1)).status h
    split
    · exact hp
    · split
      · exact hp
      · split
        · apply ih
          apply tlInv_transport _ _ hp
          · show (applyFixes env _ _).1.ciTimeline = _
            rw [arwT]
          · show (applyFixes env _ _).1.retryCount = _
            rw [arwR]
          · show _ ≤ (applyFixes env _ _).1.clock + 1
            rw [arwC]
            exact Nat.le_succ _
        · apply ih
          exact tlInv_transport _ _ hp rfl rfl (Nat.le_succ _)

/-! ## C1 — retry-loop termination and resource bounds -/

/-- C1: every heal session terminates with `retryCount ≤ 5` (also in
the returned result), at most `MAX_RETRIES = 5` visits to MONITOR_CI
(`monitorVisits`), and at most `MAX_RETRIES + 1 = 6` calls to
`_applyFixes` (the GENERATE_FIXES work): one before the loop plus at
most one per loop iteration. -/
theorem c1_retry_loop_bounded (env : OrchEnv) (issues : List Issue) :
    (runOrchestrator env 5 issues).2.retryCount ≤ 5 ∧
    (runOrchestrator env 5 issues).2.monitorVisits ≤ 5 ∧
    (runOrchestrator env 5 issues).2.applyFixesCalls ≤ 6 ∧
    (runOrchestrator env 5 issues).1.retryCount ≤ 5 := by
  obtain ⟨a1, a2, a3, a4, a5⟩ := applyFixes_fields env initState issues
  have e1 : initState.retryCount = 0 := rfl
  have e2 : initState.monitorVisits = 0 := rfl
  have e3 : initState.applyFixesCalls = 0 := rfl
  rw [runOrchestrator]
  dsimp only
  split
  · dsimp only
    omega
  · rw [ciRetryLoop]
    dsimp only
    split
    · dsimp only
      omega
    · obtain ⟨b1, b2, b3⟩ := ciLoop_bounds env 5
        (5 - (applyFixes env initState issues).1.retryCount)
        (applyFixes env initState issues).1
      omega

/-! ## C6 — timeline invariant -/

/-- C6 (amended): the `ci_timeline` iteration numbers are the
consecutive attempt numbers starting at 1 (the single NO_CI entry of a
session without CI carries iteration 0), i.e.
`ci_timeline[i].iteration = i + 1` when CI is configured — not `= i` as
claimed — and the timestamps of successive entries are non-decreasing. -/
theorem c6_timeline_amended (env : OrchEnv) (issues : List Issue) :
    (runOrchestrator env 5 issues).1.ciTimeline.map (fun e => e.iteration) =
      List.range' (if env.hasCi then 1 else 0)
        (runOrchestrator env 5 issues).1.ciTimeline.length ∧
    List.Pairwise (fun e1 e2 => e1.timestamp ≤ e2.timestamp)
      (runOrchestrator env 5 issues).1.ciTimeline := by
  obtain ⟨a1, a2, a3, a4, a5⟩ := applyFixes_fields env initState issues
  rw [runOrchestrator]
  dsimp only
  split
  · dsimp only
    rw [a4]
    exact ⟨rfl, List.Pairwise.nil⟩
  · rw [ciRetryLoop]
    dsimp only
    split
    · rename_i hci
      have hcf : env.hasCi = false := by
        cases hb : env.hasCi
        · rfl
        · rw [hb] at hci; exact absurd hci (by decide)
      dsimp only
      rw [a4, hcf]
      exact ⟨rfl, List.pairwise_singleton _ _⟩
    · rename_i hci
      have hct : env.hasCi = true := by
        cases hb : env.hasCi
        · rw [hb] at hci; exact absurd rfl hci
        · rfl
      have hinv0 : tlInv (applyFixes env initState issues).1 :=
        tlInv_empty _ (a4.trans rfl) (a1.trans rfl)
      obtain ⟨g1, g2, g3, g4⟩ := ciLoop_tlInv env 5
        (5 - (applyFixes env initState issues).1.retryCount)
        (applyFixes env initState issues).1 hinv0
      rw [hct]
      exact ⟨g1, g3⟩

/-- C6 (counterexample to the claimed 0-based indexing): a session whose
CI passes on the first attempt produces the timeline iteration list
`[1]`, not `List.range length = [0]`: `ci_timeline[0].iteration = 1`. -/
theorem c6_zero_based_counterexample :
    0 < (runOrchestrator passEnv 5 [demoIssue]).1.ciTimeline.length ∧
    (runOrchestrator passEnv 5 [demoIssue]).1.ciTimeline.map (fun e => e.iteration) = [1] ∧
    (runOrchestrator passEnv 5 [demoIssue]).1.ciTimeline.map (fun e => e.iteration) ≠
      List.range (runOrchestrator passEnv 5 [demoIssue]).1.ciTimeline.length := by
  decide

/-! ## C4 — PR creation condition -/

/-- C4 (amended): a PR is created iff `_applyFixes` reported at least
one applied fix at the moment of the decision (`appliedFixes.length >
0`), which is not the same as a fix ending the session with status
`applied`: a later commit failure demotes applied fixes to
`commit_failed` yet the PR is still created. The claim's two true
directions: if some fix ends with status `applied` a PR was created,
and with nothing applied the session ends `SKIPPED` without a PR. -/
theorem c4_pr_condition_amended (env : OrchEnv) (issues : List Issue) :
    ((runOrchestrator env 5 issues).1.prUrl.isSome = true ↔
      0 < (applyFixes env initState issues).2) ∧
    ((∃ f ∈ (runOrchestrator env 5 issues).1.fixes, f.status = "applied") →
      (runOrchestrator env 5 issues).1.prUrl.isSome = true) ∧
    ((applyFixes env initState issues).2 = 0 →
      (runOrchestrator env 5 issues).1.ciStatus = "SKIPPED" ∧
      (runOrchestrator env 5 issues).1.prUrl = none) := by
  rw [runOrchestrator]
  dsimp only
  split
  · rename_i hz
    refine ⟨?_, ?_, fun _ => ⟨rfl, rfl⟩⟩
    · rw [hz]
      simp
    · intro hex
      exfalso
      have hc := applyFixes_count env initState issues
      rw [hz] at hc
      have h0 : countApplied (applyFixes env initState issues).1.fixes = 0 := by
        have e : countApplied initState.fixes = 0 := rfl
        omega
      obtain ⟨f, hf, hs⟩ := hex
      have hmem : f ∈ (applyFixes env initState issues).1.fixes.filter
          (fun g => g.status = "applied") :=
        List.mem_filter.mpr ⟨hf, by simp [hs]⟩
      unfold countApplied at h0
      rw [List.length_eq_zero] at h0
      rw [h0] at hmem
      exact absurd hmem (List.not_mem_nil f)
  · rename_i hz
    refine ⟨?_, fun _ => rfl, fun h0 => absurd h0 hz⟩
    exact iff_of_true rfl (Nat.pos_of_ne_zero hz)

/-- C4 (witness): with `passEnv` a fix ends the session applied and the
PR is indeed opened; with no issues nothing is applied and the run ends
`SKIPPED`. -/
theorem c4_pr_condition_amended_witness :
    (runOrchestrator passEnv 5 [demoIssue]).1.prUrl.isSome = true ∧
    (runOrchestrator passEnv 5 []).1.ciStatus = "SKIPPED" := by
  constructor
  · exact (c4_pr_condition_amended passEnv [demoIssue]).2.1 (by decide)
  · exact ((c4_pr_condition_amended passEnv []).2.2 (by decide)).1

/-- C4 (counterexample to the claimed iff): with `commitFailEnv` the
commit fails after the fix was applied in memory, every fix ends the
session as `commit_failed` (none `applied`), yet a PR is created. -/
theorem c4_commit_failed_counterexample :
    (runOrchestrator commitFailEnv 5 [demoIssue]).1.prUrl.isSome = true ∧
    countApplied (runOrchestrator commitFailEnv 5 [demoIssue]).1.fixes = 0 ∧
    (runOrchestrator commitFailEnv 5 [demoIssue]).1.fixes ≠ [] := by
  decide

end CodeGuard
